import Mathlib

/-!
# Verification of the samply symbolication and ETW profile-building core

A shallow embedding, in Lean 4, of the parts of the repository that the frozen
claims are about:

* `samply-symbols/src/symbol_map_object.rs` — the `AddressEntry` table built by
  `ObjectSymbolMapInnerImpl::new`, and `lookup_relative_address` /
  `lookup_svma` / `lookup_offset`;
* `samply-symbols/src/macho.rs` — `read_uleb128` and `get_arch_range`;
* `samply/src/windows/profile_context.rs` — `AddressClassifier`,
  `handle_user_stack`, `handle_process_start` / `handle_process_end` and
  process recycling.

Pure Rust functions become Lean functions; machine integers become `Nat` with
explicit `% 2^w` / bound checks exactly where the Rust code wraps or checks;
fallible paths return `Option` / `Except`; places where the Rust code can
panic are modelled with an explicit `PanicOr` outcome.  Code of the repository
that is not under `src/` (for example `relative_address_base`, the recycler
pools, `TimestampConverter`, the unresolved-stack interning table) is modelled
from the spec; each such definition carries a doc comment saying so.
-/

set_option maxHeartbeats 1000000

namespace Samply

/-! ## Generic list machinery

`Vec::sort_by_key` is a stable sort; `Vec::dedup_by_key` keeps the first
element of every run of consecutive elements with equal keys.  We realize the
stable sort as an insertion sort that inserts each element *before* the first
later-sorted element of greater-or-equal key, which preserves the relative
order of equal keys (stability), and prove exactly the properties of
`sort_by_key`/`dedup_by_key` that the construction in
`ObjectSymbolMapInnerImpl::new` relies on. -/

/-- Insert `e` before the first element whose first component is `≥ e.1`.
Elements with a key equal to `e.1` that were inserted earlier stay in front
only if they come earlier in the list being built, which is how stability of
the overall sort is realized (`e` is the earliest element here). -/
def insertByFst {β : Type} (e : Nat × β) : List (Nat × β) → List (Nat × β)
  | [] => [e]
  | f :: rest => if f.1 < e.1 then f :: insertByFst e rest else e :: f :: rest

/-- Stable sort by the first component; extensionally equal to
`Vec::sort_by_key(|(address, _)| *address)` (a stable sort is unique). -/
def sortByFst {β : Type} : List (Nat × β) → List (Nat × β)
  | [] => []
  | e :: rest => insertByFst e (sortByFst rest)

/-- The tail walk of `dedupByFst`: `key` is the first component of the last
kept element; elements equal to it are dropped, a different element is kept
and becomes the new `key`. -/
def dedupGo {β : Type} (key : Nat) : List (Nat × β) → List (Nat × β)
  | [] => []
  | f :: rest => if f.1 == key then dedupGo key rest else f :: dedupGo f.1 rest

/-- `Vec::dedup_by_key(|(address, _)| *address)`: of every run of consecutive
elements with the same first component, keep only the first. -/
def dedupByFst {β : Type} : List (Nat × β) → List (Nat × β)
  | [] => []
  | e :: rest => e :: dedupGo e.1 rest

/-! ## The entry table (`symbol_map_object.rs`)

Data model of the pieces of a parsed object file that
`ObjectSymbolMapInnerImpl::new` consults.  Names of byte strings from the
`object` crate (`name_bytes`) are `Option (List Nat)`: `none` models an `Err`
from `Symbol::name_bytes()` (e.g. a corrupt string-table reference). -/

inductive ObjSectionKind : Type
  | text
  | uninitializedData
  | other
deriving DecidableEq

structure ObjSection where
  index : Nat
  kind : ObjSectionKind
  /-- For ELF debug files: whether `sh_flags` carries `SHF_EXECINSTR`. -/
  elfShfExecinstr : Bool
  address : Nat
  size : Nat
deriving DecidableEq

inductive ObjSymbolKind : Type
  | text
  | label
  | other
deriving DecidableEq

structure ObjSymbol where
  address : Nat
  size : Nat
  kind : ObjSymbolKind
  section_index : Option Nat
  /-- `none` models `name_bytes()` returning `Err`. -/
  name_bytes : Option (List Nat)
deriving DecidableEq

structure ObjExport where
  address : Nat
  name : List Nat
deriving DecidableEq

/-- The parts of `object::File` that `ObjectSymbolMapInnerImpl::new` reads.
`exports = none` models `object_file.exports()` returning `Err`. -/
structure ObjectFileModel where
  sections : List ObjSection
  symbols : List ObjSymbol
  dynamic_symbols : List ObjSymbol
  exports : Option (List ObjExport)
  entry : Nat
deriving DecidableEq

/-- `FullSymbolListEntry` from `symbol_map_object.rs` (the payloads are
reduced to the data the entry table and lookups actually read: the name
bytes). -/
inductive FullSymbolListEntry : Type
  | synthesized
  | synthesizedEntryPoint
  | symbol (name_bytes : Option (List Nat))
  | exportEntry (name : List Nat)
  | endAddress
deriving DecidableEq

/-- The executable sections computed at the top of
`ObjectSymbolMapInnerImpl::new`: text sections, plus (for ELF debug files)
uninitialized-data sections carrying `SHF_EXECINSTR`. -/
def executable_sections (o : ObjectFileModel) : List Nat :=
  o.sections.filterMap (fun s =>
    match s.kind, s.elfShfExecinstr with
    | ObjSectionKind.text, _ => some s.index
    | ObjSectionKind.uninitializedData, true => some s.index
    | _, _ => none)

/-- The symbol filter of step 1/2: non-zero address; kind `Text`, or kind
`Label` with non-zero size; resides in an executable section. -/
def symbolFilter (o : ObjectFileModel) (s : ObjSymbol) : Bool :=
  (s.address != 0) &&
  (match s.kind with
   | ObjSymbolKind.text => true
   | ObjSymbolKind.label => s.size != 0
   | ObjSymbolKind.other => false) &&
  (match s.section_index with
   | some i => (executable_sections o).contains i
   | none => false)

/-- `u32::try_from(address.checked_sub(base_address)?).ok()?`. -/
def checkedRelU32 (address base : Nat) : Option Nat :=
  if address < base then none
  else if address - base < 2 ^ 32 then some (address - base) else none

/-- Wrapping `u64` subtraction followed by an `as u32` truncating cast, as in
`(export.address() - base_address) as u32` (release semantics; inputs are
`u64` values `< 2^64`). -/
def wrapSubU64toU32 (a b : Nat) : Nat :=
  ((a + 2 ^ 64 - b) % 2 ^ 64) % 2 ^ 32

/-- Steps 1–2: normal + dynamic symbols, filtered and converted to relative
addresses with overflow/underflow checks (out-of-range symbols are dropped). -/
def symbolEntries (o : ObjectFileModel) (base : Nat) : List (Nat × FullSymbolListEntry) :=
  ((o.symbols ++ o.dynamic_symbols).filter (symbolFilter o)).filterMap
    (fun s => (checkedRelU32 s.address base).map
      (fun a => (a, FullSymbolListEntry.symbol s.name_bytes)))

/-- Step 3: module exports (skipped entirely when `exports()` errs). -/
def exportEntries (o : ObjectFileModel) (base : Nat) : List (Nat × FullSymbolListEntry) :=
  match o.exports with
  | some exps => exps.map (fun e => (wrapSubU64toU32 e.address base,
      FullSymbolListEntry.exportEntry e.name))
  | none => []

/-- Step 4: synthesized placeholder entries at each function start address. -/
def synthesizedEntries (fsa : Option (List Nat)) : List (Nat × FullSymbolListEntry) :=
  match fsa with
  | some l => l.map (fun a => (a, FullSymbolListEntry.synthesized))
  | none => []

/-- Step 5: a placeholder for the entry point:
`object_file.entry().checked_sub(base_address)` then an `as u32` cast. -/
def entryPointEntries (o : ObjectFileModel) (base : Nat) : List (Nat × FullSymbolListEntry) :=
  if o.entry < base then []
  else [((o.entry - base) % 2 ^ 32, FullSymbolListEntry.synthesizedEntryPoint)]

/-- Step 6: end addresses from text section ends, with `checked_add`,
`checked_sub` and `u32::try_from` checks. -/
def sectionEndEntries (o : ObjectFileModel) (base : Nat) : List (Nat × FullSymbolListEntry) :=
  (o.sections.filter (fun s => s.kind == ObjSectionKind.text)).filterMap
    (fun s =>
      if s.address + s.size < 2 ^ 64 then
        (checkedRelU32 (s.address + s.size) base).map
          (fun a => (a, FullSymbolListEntry.endAddress))
      else none)

/-- Step 7: end addresses for sized text symbols (normal symbols only). -/
def symbolEndEntries (o : ObjectFileModel) (base : Nat) : List (Nat × FullSymbolListEntry) :=
  (o.symbols.filter (fun s =>
      s.kind == ObjSymbolKind.text && s.address != 0 && s.size != 0)).filterMap
    (fun s =>
      if s.address + s.size < 2 ^ 64 then
        (checkedRelU32 (s.address + s.size) base).map
          (fun a => (a, FullSymbolListEntry.endAddress))
      else none)

/-- Step 8: externally supplied function end addresses (`.eh_frame`/`.pdata`). -/
def functionEndEntries (fea : Option (List Nat)) : List (Nat × FullSymbolListEntry) :=
  match fea with
  | some l => l.map (fun a => (a, FullSymbolListEntry.endAddress))
  | none => []

/-- The entry list as accumulated by `ObjectSymbolMapInnerImpl::new` *before*
sorting and deduplication, in insertion order best-to-worst:
symbols, exports, synthesized starts, entry point, end addresses.
`base` stands for `relative_address_base(object_file)` (defined in
`shared.rs`, outside `src/`), taken here as a parameter. -/
def preEntries (o : ObjectFileModel) (base : Nat) (fsa fea : Option (List Nat)) :
    List (Nat × FullSymbolListEntry) :=
  symbolEntries o base ++ exportEntries o base ++ synthesizedEntries fsa ++
  entryPointEntries o base ++ sectionEndEntries o base ++ symbolEndEntries o base ++
  functionEndEntries fea

/-- The entry table of `ObjectSymbolMapInnerImpl::new`: stable sort by
address followed by first-wins deduplication. -/
def buildEntries (o : ObjectFileModel) (base : Nat) (fsa fea : Option (List Nat)) :
    List (Nat × FullSymbolListEntry) :=
  dedupByFst (sortByFst (preEntries o base fsa fea))

/-! ## Lookup (`symbol_map_object.rs`) -/

/-- `SvmaFileRange` from `symbol_map_object.rs`. -/
structure SvmaFileRange where
  svma : Nat
  file_offset : Nat
  size : Nat
deriving DecidableEq

/-- `ObjectSymbolMapInnerImpl::file_offset_to_svma`: scan the ranges for one
containing `offset`; `svma.checked_add(offset_from_range_start)`. -/
def file_offset_to_svma (ranges : List SvmaFileRange) (offset : Nat) : Option Nat :=
  match ranges.find? (fun r =>
      decide (r.file_offset ≤ offset) && decide (offset < r.file_offset + r.size)) with
  | some r =>
      if r.svma + (offset - r.file_offset) < 2 ^ 64 then
        some (r.svma + (offset - r.file_offset))
      else none
  | none => none

/-- A byte-level model of `std::str::from_utf8(..).is_ok()` (RFC 3629,
rejecting overlong forms and surrogates). -/
def isUtf8Cont (b : Nat) : Bool := 128 ≤ b && b ≤ 191

def isValidUtf8 : List Nat → Bool
  | [] => true
  | b :: rest =>
    if b ≤ 0x7F then isValidUtf8 rest
    else if 0xC2 ≤ b && b ≤ 0xDF then
      match rest with
      | c1 :: rest1 => isUtf8Cont c1 && isValidUtf8 rest1
      | [] => false
    else if b == 0xE0 then
      match rest with
      | c1 :: c2 :: rest2 =>
        (0xA0 ≤ c1 && c1 ≤ 0xBF) && isUtf8Cont c2 && isValidUtf8 rest2
      | _ => false
    else if (0xE1 ≤ b && b ≤ 0xEC) || b == 0xEE || b == 0xEF then
      match rest with
      | c1 :: c2 :: rest2 => isUtf8Cont c1 && isUtf8Cont c2 && isValidUtf8 rest2
      | _ => false
    else if b == 0xED then
      match rest with
      | c1 :: c2 :: rest2 =>
        (0x80 ≤ c1 && c1 ≤ 0x9F) && isUtf8Cont c2 && isValidUtf8 rest2
      | _ => false
    else if b == 0xF0 then
      match rest with
      | c1 :: c2 :: c3 :: rest3 =>
        (0x90 ≤ c1 && c1 ≤ 0xBF) && isUtf8Cont c2 && isUtf8Cont c3 && isValidUtf8 rest3
      | _ => false
    else if 0xF1 ≤ b && b ≤ 0xF3 then
      match rest with
      | c1 :: c2 :: c3 :: rest3 =>
        isUtf8Cont c1 && isUtf8Cont c2 && isUtf8Cont c3 && isValidUtf8 rest3
      | _ => false
    else if b == 0xF4 then
      match rest with
      | c1 :: c2 :: c3 :: rest3 =>
        (0x80 ≤ c1 && c1 ≤ 0x8F) && isUtf8Cont c2 && isUtf8Cont c3 && isValidUtf8 rest3
      | _ => false
    else false

/-- Lowercase hex digit byte, as produced by `format!("{addr:x}")`. -/
def hexDigitByte (d : Nat) : Nat := if d < 10 then 48 + d else 87 + d

def hexBytes (n : Nat) : List Nat :=
  if _h : n < 16 then [hexDigitByte n]
  else hexBytes (n / 16) ++ [hexDigitByte (n % 16)]
decreasing_by exact Nat.div_lt_self (by omega) (by omega)

/-- The bytes of `format!("fun_{addr:x}")`. -/
def funHexName (addr : Nat) : List Nat := [102, 117, 110, 95] ++ hexBytes addr

/-- The bytes of `"EntryPoint"`. -/
def entryPointName : List Nat := [69, 110, 116, 114, 121, 80, 111, 105, 110, 116]

/-- Library functions that live outside this repository's `src/` and whose
exact values no claim depends on.  Modelled from the spec:
`String::from_utf8_lossy` (the std library) and `demangle::demangle_any`
("demangling algorithms [are] treated as a pure function"), both as abstract
byte-string transformers. -/
structure ExternalFns where
  from_utf8_lossy : List Nat → List Nat
  demangle_any : List Nat → List Nat

/-- `FullSymbolListEntry::name`: `Err` (here `none`) exactly for `EndAddress`
and for a `Symbol` whose `name_bytes()` errs. -/
def FullSymbolListEntry.name (ext : ExternalFns) :
    FullSymbolListEntry → Nat → Option (List Nat)
  | FullSymbolListEntry.synthesized, addr => some (funHexName addr)
  | FullSymbolListEntry.synthesizedEntryPoint, _ => some entryPointName
  | FullSymbolListEntry.symbol nb, _ => nb.map ext.from_utf8_lossy
  | FullSymbolListEntry.exportEntry nb, _ => some (ext.from_utf8_lossy nb)
  | FullSymbolListEntry.endAddress, _ => none

/-- One entry of the `object` crate's `ObjectMap` (Mach-O OSO debug map);
`object_name` is the raw byte string of the referenced external file.
Modelled from the spec ("an object-map entry covers the SVMA"); the crate is
an external collaborator. -/
structure ObjectMapEntry where
  address : Nat
  size : Nat
  name : List Nat
  object_name : List Nat
deriving DecidableEq

/-- `ObjectMap::get(svma)`: the entry covering the address, if any. -/
def objectMapGet (entries : List ObjectMapEntry) (address : Nat) : Option ObjectMapEntry :=
  entries.find? (fun e =>
    decide (e.address ≤ address) && decide (address < e.address + e.size))

structure DwoRef where
  comp_dir : List Nat
  path : List Nat
  dwo_id : Nat
deriving DecidableEq

inductive ExternalFileAddressInFileRef : Type
  | machoOsoArchive (name_in_archive : List Nat) (symbol_name : List Nat)
      (offset_from_symbol : Nat)
  | machoOsoObject (symbol_name : List Nat) (offset_from_symbol : Nat)
deriving DecidableEq

structure ExternalFileAddressRef where
  file_name : List Nat
  address_in_file : ExternalFileAddressInFileRef
deriving DecidableEq

inductive FramesLookupResult : Type
  | available (frames : List Nat)
  | unavailable
  | oso (r : ExternalFileAddressRef)
  | needDwo (svma : Nat) (dwo_ref : DwoRef) (interim_frames : Option (List Nat))
deriving DecidableEq

/-- The outcome of `addr2line::Context::find_frames` composed with
`convert_frames` (both outside `src/`; modelled from the spec, §4.4):
either a split-DWARF load request (whose `comp_dir`/`path` the code unwraps),
a successful output with the converted frames, or an error output. -/
inductive CtxOutcome : Type
  | load (comp_dir : Option (List Nat)) (path : Option (List Nat)) (dwo_id : Nat)
  | outputOk (converted_frames : Option (List Nat))
  | outputErr

/-- The fields of `ObjectSymbolMapInnerImpl` that lookups read (the
path-mapper mutex is concurrency plumbing and carries no lookup-relevant
state). -/
structure SymbolMapModel where
  entries : List (Nat × FullSymbolListEntry)
  debug_id : Nat
  object_map : List ObjectMapEntry
  context : Option (Nat → CtxOutcome)
  svma_file_ranges : List SvmaFileRange
  image_base_address : Nat

/-- An outcome that makes Rust panics explicit. -/
inductive PanicOr (α : Type) : Type
  | panicked
  | ok (val : α)
deriving DecidableEq

structure SymbolInfo where
  address : Nat
  size : Option Nat
  name : List Nat
deriving DecidableEq

structure AddressInfo where
  symbol : SymbolInfo
  frames : FramesLookupResult
deriving DecidableEq

/-- The index arithmetic of
`entries.binary_search_by_key(&address, ..)` + `Err(0)/Ok(i)/Err(i)` handling
+ `entries.get(index + 1)`: on the (sorted) entry table this returns the last
entry with `addr ≤ address` together with the entry right after it. -/
def findEntryAndNext :
    List (Nat × FullSymbolListEntry) → Nat →
    Option ((Nat × FullSymbolListEntry) × Option (Nat × FullSymbolListEntry))
  | [], _ => none
  | [e], a => if e.1 ≤ a then some (e, none) else none
  | e1 :: e2 :: rest, a =>
    if e2.1 ≤ a then findEntryAndNext (e2 :: rest) a
    else if e1.1 ≤ a then some (e1, some e2) else none

/-- `trim_start_matches('(')`. -/
def trimStartParens (l : List Nat) : List Nat := l.dropWhile (fun x => x == 40)

/-- `trim_end_matches(')')`. -/
def trimEndParens (l : List Nat) : List Nat :=
  (l.reverse.dropWhile (fun x => x == 41)).reverse

/-- `external_file_name.find('(')` plus the `split_at`/trim dance of the
archive-reference branch. -/
def splitAtParen (l : List Nat) : Option (List Nat × List Nat) :=
  match l.findIdx? (fun x => x == 40) with
  | some i => some (l.take i, trimEndParens (trimStartParens (l.drop i)))
  | none => none

/-- The object-map fallback branch of `lookup_relative_address`
(lines 448–491 of `symbol_map_object.rs`), including the
`std::str::from_utf8(external_file_name).unwrap()` that panics on
non-UTF-8 file names. -/
def framesFallback (m : SymbolMapModel) (svma : Nat) : PanicOr FramesLookupResult :=
  match objectMapGet m.object_map svma with
  | some entry =>
    if isValidUtf8 entry.object_name then
      let offset_from_symbol := (svma - entry.address) % 2 ^ 32
      let symbol_name := entry.name
      match splitAtParen entry.object_name with
      | some (path, name_in_archive) =>
        PanicOr.ok (FramesLookupResult.oso
          ⟨path, ExternalFileAddressInFileRef.machoOsoArchive
            name_in_archive symbol_name offset_from_symbol⟩)
      | none =>
        PanicOr.ok (FramesLookupResult.oso
          ⟨entry.object_name, ExternalFileAddressInFileRef.machoOsoObject
            symbol_name offset_from_symbol⟩)
    else PanicOr.panicked
  | none => PanicOr.ok FramesLookupResult.unavailable

/-- The frames computation of `lookup_relative_address` (lines 432–492):
`DwoRef::from_split_dwarf_load` unwraps `comp_dir`/`path`, so a `Load` with a
missing component is a panic. -/
def framesLookup (m : SymbolMapModel) (svma : Nat) : PanicOr FramesLookupResult :=
  match m.context.map (fun ctx => ctx svma) with
  | some (CtxOutcome.load comp_dir path dwo_id) =>
    match comp_dir, path with
    | some cd, some p =>
      PanicOr.ok (FramesLookupResult.needDwo svma ⟨cd, p, dwo_id⟩ none)
    | _, _ => PanicOr.panicked
  | some (CtxOutcome.outputOk converted) =>
    match converted with
    | some fr => PanicOr.ok (FramesLookupResult.available fr)
    | none => PanicOr.ok FramesLookupResult.unavailable
  | _ => framesFallback m svma

/-- `ObjectSymbolMapInnerImpl::lookup_relative_address`. -/
def lookup_relative_address (ext : ExternalFns) (m : SymbolMapModel) (address : Nat) :
    PanicOr (Option AddressInfo) :=
  match findEntryAndNext m.entries address with
  | none => PanicOr.ok none
  | some (e, nextEntry) =>
    match e.2.name ext e.1, nextEntry with
    | some nm, some e' =>
      let function_size := e'.1 - e.1
      let svma := m.image_base_address + address
      match framesLookup m svma with
      | PanicOr.panicked => PanicOr.panicked
      | PanicOr.ok frames =>
        PanicOr.ok (some ⟨⟨e.1, some function_size, ext.demangle_any nm⟩, frames⟩)
    | _, _ => PanicOr.ok none

/-- `ObjectSymbolMapInnerImpl::lookup_svma`:
`svma.checked_sub(image_base)?.try_into().ok()?`. -/
def lookup_svma (ext : ExternalFns) (m : SymbolMapModel) (svma : Nat) :
    PanicOr (Option AddressInfo) :=
  if m.image_base_address ≤ svma ∧ svma - m.image_base_address < 2 ^ 32 then
    lookup_relative_address ext m (svma - m.image_base_address)
  else PanicOr.ok none

/-- `ObjectSymbolMapInnerImpl::lookup_offset`. -/
def lookup_offset (ext : ExternalFns) (m : SymbolMapModel) (offset : Nat) :
    PanicOr (Option AddressInfo) :=
  match file_offset_to_svma m.svma_file_ranges offset with
  | some svma => lookup_svma ext m svma
  | none => PanicOr.ok none

/-- The floor entry of an address: the table entry of greatest address `≤ A`. -/
def isFloor (entries : List (Nat × FullSymbolListEntry)) (A : Nat)
    (E : Nat × FullSymbolListEntry) : Prop :=
  E ∈ entries ∧ E.1 ≤ A ∧ ∀ F ∈ entries, F.1 ≤ A → F.1 ≤ E.1

/-- The successor of an entry: the table entry of least address `> E.1`. -/
def isSucc (entries : List (Nat × FullSymbolListEntry))
    (E E' : Nat × FullSymbolListEntry) : Prop :=
  E' ∈ entries ∧ E.1 < E'.1 ∧ ∀ F ∈ entries, E.1 < F.1 → E'.1 ≤ F.1

instance (entries : List (Nat × FullSymbolListEntry)) (A : Nat)
    (E : Nat × FullSymbolListEntry) : Decidable (isFloor entries A E) := by
  unfold isFloor
  infer_instance

instance (entries : List (Nat × FullSymbolListEntry))
    (E E' : Nat × FullSymbolListEntry) : Decidable (isSucc entries E E') := by
  unfold isSucc
  infer_instance

/-! ## uleb128 (`macho.rs`) -/

/-- `read_uleb128` from `macho.rs`, on byte values (`Nat`s `< 256`).
`b &&& 0x7f` is `byte & !CONTINUATION_BIT`; `b &&& 0x80 == 0` is the
termination test. -/
def read_uleb128_go : List Nat → Nat → Nat → Option (Nat × List Nat)
  | [], _, _ => none
  | b :: rest, result, shift =>
    if shift == 63 && b != 0x00 && b != 0x01 then none
    else
      let low_bits := b &&& 0x7f
      let result := result ||| (low_bits <<< shift)
      if b &&& 0x80 == 0 then some (result, rest)
      else read_uleb128_go rest result (shift + 7)

def read_uleb128 (bytes : List Nat) : Option (Nat × List Nat) :=
  read_uleb128_go bytes 0 0

/-- Modelled from the spec: the standard uleb128 encoder ("encoding a value
V < 2⁶⁴") — the repository only contains the decoder, so the encoder half of
the round-trip claim is taken from the spec's words: emit 7 bits at a time,
setting the continuation bit whenever more bits remain. -/
def uleb128Encode (v : Nat) : List Nat :=
  if _h : v < 128 then [v]
  else (v % 128 + 128) :: uleb128Encode (v / 128)
decreasing_by exact Nat.div_lt_self (by omega) (by omega)

/-! ## Fat-binary selection (`macho.rs`) -/

/-- One architecture slice of a fat binary, as seen by `get_arch_range`:
its file range, whether `File::parse` of the slice succeeds, and the
`debug_id_for_object` result (`none` models a missing Mach-O UUID).
`parse` and `debug_id_for_object` live outside `src/` (the `object` crate and
`debugid_util.rs`), so their outcomes are data here. -/
structure FatArchModel where
  start : Nat
  size : Nat
  parseOk : Bool
  debugId : Option Nat
deriving DecidableEq

/-- The errors `get_arch_range` can put in the collected-error list (always
`InvalidInputError("Missing mach-O UUID")` by construction). -/
inductive CollectedError : Type
  | invalidInputError (msg : String)
deriving DecidableEq

inductive ArchRangeError : Type
  | machOHeaderParseError
  | noMatchMultiArch (debug_ids : List Nat) (errors : List CollectedError)
deriving DecidableEq

/-- `get_arch_range` from `macho.rs`: iterate the slices; a slice that fails
to parse propagates `MachOHeaderParseError` immediately; a slice whose
DebugId matches returns its range; otherwise mismatched DebugIds and
missing-UUID errors are collected and returned as `NoMatchMultiArch`. -/
def get_arch_range_go (debug_id : Nat) (debug_ids : List Nat)
    (errors : List CollectedError) :
    List FatArchModel → Except ArchRangeError (Nat × Nat)
  | [] => Except.error (ArchRangeError.noMatchMultiArch debug_ids errors)
  | a :: rest =>
    if a.parseOk then
      match a.debugId with
      | some di =>
        if di = debug_id then Except.ok (a.start, a.size)
        else get_arch_range_go debug_id (debug_ids ++ [di]) errors rest
      | none =>
        get_arch_range_go debug_id debug_ids
          (errors ++ [CollectedError.invalidInputError "Missing mach-O UUID"]) rest
    else Except.error ArchRangeError.machOHeaderParseError

def get_arch_range (arches : List FatArchModel) (debug_id : Nat) :
    Except ArchRangeError (Nat × Nat) :=
  get_arch_range_go debug_id [] [] arches

/-- The claim's reading of fat-binary selection, written from the spec's
words: return the range of the first slice whose DebugId equals the requested
one; if no slice matches, return `NoMatchMultiArch` carrying the DebugIds of
the mismatched slices and one missing-UUID error per slice without a UUID. -/
def specArchSelect (arches : List FatArchModel) (debug_id : Nat) :
    Except ArchRangeError (Nat × Nat) :=
  match arches.find? (fun a => a.debugId == some debug_id) with
  | some a => Except.ok (a.start, a.size)
  | none =>
    Except.error (ArchRangeError.noMatchMultiArch
      (arches.filterMap (fun a => a.debugId))
      (arches.filterMap (fun a =>
        match a.debugId with
        | none => some (CollectedError.invalidInputError "Missing mach-O UUID")
        | some _ => none)))

/-! ## Profile builder (`profile_context.rs`) -/

inductive StackMode : Type
  | user
  | kernel
deriving DecidableEq

inductive StackFrame : Type
  | instructionPointer (address : Nat) (mode : StackMode)
  | returnAddress (address : Nat) (mode : StackMode)
deriving DecidableEq

/-- `AddressClassifier` from `profile_context.rs`. -/
structure AddressClassifier where
  kernel_min : Nat
deriving DecidableEq

/-- `AddressClassifier::get_stack_mode`. -/
def AddressClassifier.get_stack_mode (c : AddressClassifier) (address : Nat) : StackMode :=
  if c.kernel_min ≤ address then StackMode.kernel else StackMode.user

/-- The `kernel_min` computed in `ProfileContext::new`
(lines 308–316): `0x8000_0000` for "x86", `0xF000_0000_0000_0000` otherwise. -/
def kernelMinForArch (arch : String) : Nat :=
  if arch = "x86" then 0x80000000 else 0xF000000000000000

/-- `to_stack_frames` from `profile_context.rs`: first frame is an
`InstructionPointer`, all successors are `ReturnAddress`, each classified by
the address classifier. -/
def to_stack_frames (addresses : List Nat) (c : AddressClassifier) : List StackFrame :=
  match addresses with
  | [] => []
  | first :: rest =>
    StackFrame.instructionPointer first (c.get_stack_mode first) ::
      rest.map (fun a => StackFrame.returnAddress a (c.get_stack_mode a))

/-- `OffCpuSampleGroup` (from `shared/context_switch.rs`, outside `src/`).
Modelled from the spec: "a batch of samples synthesized to account for a
period during which a thread was not scheduled" — begin/end timestamps and a
sample count. -/
structure OffCpuSampleGroup where
  begin_timestamp : Nat
  end_timestamp : Nat
  sample_count : Nat
deriving DecidableEq

/-- `PendingStack` from `profile_context.rs`.  `CpuDelta` is modelled as a
nanosecond count. -/
structure PendingStack where
  timestamp : Nat
  kernel_stack : Option (List StackFrame)
  off_cpu_sample_group : Option OffCpuSampleGroup
  on_cpu_sample_cpu_delta : Option Nat
deriving DecidableEq

/-- `TimestampConverter` (from `shared/timestamp_converter.rs`, outside
`src/`).  Modelled from the spec: a reference raw timestamp and a
raw-to-nanosecond factor (`10⁹ / perf_freq`); converting a raw timestamp
yields nanoseconds since the reference. -/
structure TimestampConverter where
  reference_raw : Nat
  raw_to_ns_factor : Nat
deriving DecidableEq

def TimestampConverter.convert_time (c : TimestampConverter) (raw : Nat) : Nat :=
  (raw - c.reference_raw) * c.raw_to_ns_factor

/-- `ThreadContextSwitchData` (from `shared/context_switch.rs`, outside
`src/`).  Modelled from the spec: the context-switch accounting state of a
thread, reduced to the accumulated (not yet consumed) raw CPU delta. -/
structure ThreadContextSwitchData where
  accumulated_delta : Nat
deriving DecidableEq

/-- `ContextSwitchHandler::consume_cpu_delta` (outside `src/`).  Modelled
from the spec: "consumes accumulated CPU-delta" — returns the accumulated
raw delta and resets it. -/
def consume_cpu_delta (d : ThreadContextSwitchData) : Nat × ThreadContextSwitchData :=
  (d.accumulated_delta, ⟨0⟩)

/-- `ThreadState` from `profile_context.rs` (the pending-marker map is not
involved in any claim and is omitted).  Handles and label frames are profile
handles, modelled as `Nat` ids. -/
structure ThreadStateM where
  name : Option String
  is_main_thread : Bool
  handle : Nat
  label_frame : Nat
  pending_stacks : List PendingStack
  context_switch_data : ThreadContextSwitchData
  thread_id : Nat
  process_id : Nat
deriving DecidableEq

/-- One sample handed to `UnresolvedSamples::add_sample` (outside `src/`).
Modelled from the spec: the unresolved-samples queue records, per sample, the
thread handle, converted and raw timestamps, the interned stack index, the
CPU delta and the (i32) weight. -/
structure SampleRec where
  thread_handle : Nat
  timestamp : Nat
  timestamp_raw : Nat
  stack_index : Nat
  cpu_delta : Nat
  weight : Int
deriving DecidableEq

/-- `ProcessState` from `profile_context.rs`.  The two lib-mapping-op queues
are kept as opaque timestamped entries (no claim reads them); the memory
counter keeps only its handle; the JIT function recycler (outside `src/`) is
reduced to its finished-round count. -/
structure ProcessStateM where
  name : String
  handle : Nat
  seen_main_thread_start : Bool
  unresolved_samples : List SampleRec
  regular_lib_mapping_ops : List (Nat × Nat)
  jit_lib_mapping_ops : List (Nat × Nat)
  main_thread_handle : Nat
  main_thread_label_frame : Nat
  memory_usage : Option Nat
  process_id : Nat
  parent_id : Nat
  thread_recycler : Option (List (String × Nat × Nat))
  jit_function_recycler : Option Nat
deriving DecidableEq

/-- `ProcessRecyclingData` (from `shared/recycling.rs`, outside `src/`).
Modelled from the spec: "a bundle of process handle + main-thread data +
subordinate recyclers". -/
structure ProcessRecyclingData where
  process_handle : Nat
  main_thread_handle : Nat
  main_thread_label_frame : Nat
  thread_recycler : List (String × Nat × Nat)
  jit_function_recycler : Nat
deriving DecidableEq

/-- Recycler pools (outside `src/`).  Modelled from the spec: "a
many-keys-to-list map of bundled handles keyed by name; duplicate names are
allowed and served in FIFO … order".  Removing by name takes the first
matching entry out of the pool. -/
def recycleFromPool {α : Type} : List (String × α) → String → Option (α × List (String × α))
  | [], _ => none
  | (n, v) :: rest, name =>
    if n = name then some (v, rest)
    else
      match recycleFromPool rest name with
      | some (v', rest') => some (v', (n, v) :: rest')
      | none => none

/-- `ProcessState::take_recycling_data`: both recyclers must be present
(`take()?`); the JIT recycler finishes its round on hand-back. -/
def take_recycling_data (p : ProcessStateM) :
    Option (ProcessRecyclingData × ProcessStateM) :=
  match p.jit_function_recycler, p.thread_recycler with
  | some jit, some tr =>
    some (⟨p.handle, p.main_thread_handle, p.main_thread_label_frame, tr, jit + 1⟩,
      { p with jit_function_recycler := none, thread_recycler := none })
  | _, _ => none

/-- The profile builder collaborator (`fxprof_processed_profile`, external).
Modelled from the spec (§6, "Profile output"): `add_process`/`add_thread`
hand out fresh handles; `intern_string` dedupes; end times are recorded. -/
structure ProfileM where
  next_process_handle : Nat
  next_thread_handle : Nat
  strings : List String
  process_end_times : List (Nat × Nat)
  thread_end_times : List (Nat × Nat)
deriving DecidableEq

def ProfileM.add_process (p : ProfileM) (_name : String) (_pid : Nat) (_ts : Nat) :
    Nat × ProfileM :=
  (p.next_process_handle, { p with next_process_handle := p.next_process_handle + 1 })

def ProfileM.add_thread (p : ProfileM) (_proc : Nat) (_tid : Nat) (_ts : Nat)
    (_is_main : Bool) : Nat × ProfileM :=
  (p.next_thread_handle, { p with next_thread_handle := p.next_thread_handle + 1 })

def ProfileM.set_process_end_time (p : ProfileM) (h ts : Nat) : ProfileM :=
  { p with process_end_times := p.process_end_times ++ [(h, ts)] }

def ProfileM.intern_string (p : ProfileM) (s : String) : Nat × ProfileM :=
  match p.strings.findIdx? (fun x => x == s) with
  | some i => (i, p)
  | none => (p.strings.length, { p with strings := p.strings ++ [s] })

/-- `make_thread_label_frame` from `profile_context.rs`; the resulting
`FrameInfo` is represented by the interned label string's handle. -/
def make_thread_label_frame (p : ProfileM) (name : Option String) (pid tid : Nat) :
    Nat × ProfileM :=
  let s :=
    match name with
    | some n => n ++ " (pid: " ++ toString pid ++ ", tid: " ++ toString tid ++ ")"
    | none =>
      "Thread " ++ toString tid ++ " (pid: " ++ toString pid ++ ", tid: " ++
        toString tid ++ ")"
  p.intern_string s

/-- Association-list operations standing in for `HashMap` keyed by pid/tid. -/
def alookup {α : Type} (m : List (Nat × α)) (k : Nat) : Option α :=
  match m.find? (fun e => e.1 == k) with
  | some e => some e.2
  | none => none

def aremove {α : Type} (m : List (Nat × α)) (k : Nat) : List (Nat × α) :=
  m.filter (fun e => e.1 != k)

def ainsert {α : Type} (m : List (Nat × α)) (k : Nat) (v : α) : List (Nat × α) :=
  (k, v) :: aremove m k

/-- `UnresolvedStacks::convert` (outside `src/`).  Modelled from the spec:
stacks are interned; equal frame sequences map to the same index, new
sequences get a fresh index.  Call sites pass the frame sequence already
reversed, as the Rust code does with `.rev()`. -/
def convertStack (table : List (List StackFrame)) (frames : List StackFrame) :
    Nat × List (List StackFrame) :=
  match table.findIdx? (fun x => x == frames) with
  | some i => (i, table)
  | none => (table.length, table ++ [frames])

/-- The fields of `ProfileContext` that the claims' event handlers touch.
`make_process_name_fn` stands for `ProfileContext::make_process_name`
(device-path mapping + shlex + `make_process_name`, all outside `src/` or
out of the spec's scope); `included_processes` models
`IncludedProcesses::should_include` as a predicate. -/
structure ProfileContextM where
  profile : ProfileM
  processes : List (Nat × ProcessStateM)
  dead_processes_with_reused_pids : List ProcessStateM
  threads : List (Nat × ThreadStateM)
  dead_threads_with_reused_tids : List ThreadStateM
  unresolved_stacks : List (List StackFrame)
  process_recycler : Option (List (String × ProcessRecyclingData))
  included_processes : Option (Option String → Nat → Bool)
  make_process_name_fn : String → String → String
  timestamp_converter : TimestampConverter
  sample_count : Nat
  stack_sample_count : Nat
  main_thread_only : Bool

/-- `ProfileContext::is_interesting_process`. -/
def is_interesting_process (s : ProfileContextM) (pid : Nat) (ppid : Option Nat)
    (name : Option String) : Bool :=
  if pid == 0 then false
  else if (alookup s.processes pid).isSome ||
      (match ppid with
       | some k => (alookup s.processes k).isSome
       | none => false) then true
  else
    match s.included_processes with
    | some incl => incl name pid
    | none => true

/-- The fresh-process tail shared by `handle_process_start` (and
`handle_process_dcstart`): `add_process`, `add_thread` for the pre-allocated
main thread, the main-thread label frame, and recyclers iff process recycling
is enabled. -/
def addFreshProcess (s : ProfileContextM) (timestamp : Nat) (name : String)
    (pid parent_pid : Nat) : ProfileContextM :=
  let r1 := s.profile.add_process name pid timestamp
  let r2 := r1.2.add_thread r1.1 pid timestamp true
  let r3 := make_thread_label_frame r2.2 (some name) pid pid
  let recyclers : Option (List (String × Nat × Nat)) × Option Nat :=
    if s.process_recycler.isSome then (some [], some 0) else (none, none)
  let process : ProcessStateM :=
    { name := name
      seen_main_thread_start := false
      handle := r1.1
      unresolved_samples := []
      regular_lib_mapping_ops := []
      main_thread_handle := r2.1
      main_thread_label_frame := r3.1
      memory_usage := none
      process_id := pid
      parent_id := parent_pid
      jit_lib_mapping_ops := []
      thread_recycler := recyclers.1
      jit_function_recycler := recyclers.2 }
  { s with profile := r3.2, processes := ainsert s.processes pid process }

/-- `ProfileContext::handle_process_start` (lines 564–645). -/
def handle_process_start (s : ProfileContextM) (timestamp_raw pid parent_pid : Nat)
    (image_file_name cmdline : String) : ProfileContextM :=
  if ¬ is_interesting_process s pid (some parent_pid) (some image_file_name) then s
  else
    let timestamp := s.timestamp_converter.convert_time timestamp_raw
    let s :=
      match alookup s.processes pid with
      | some dead =>
        { s with
          profile := s.profile.set_process_end_time dead.handle timestamp
          processes := aremove s.processes pid
          dead_processes_with_reused_pids := s.dead_processes_with_reused_pids ++ [dead] }
      | none => s
    let name := s.make_process_name_fn image_file_name cmdline
    match s.process_recycler with
    | some pool =>
      match recycleFromPool pool name with
      | some (data, pool') =>
        let process : ProcessStateM :=
          { name := name
            seen_main_thread_start := false
            handle := data.process_handle
            unresolved_samples := []
            regular_lib_mapping_ops := []
            main_thread_handle := data.main_thread_handle
            main_thread_label_frame := data.main_thread_label_frame
            memory_usage := none
            process_id := pid
            parent_id := parent_pid
            jit_lib_mapping_ops := []
            thread_recycler := some data.thread_recycler
            jit_function_recycler := some data.jit_function_recycler }
        { s with process_recycler := some pool'
                 processes := ainsert s.processes pid process }
      | none => addFreshProcess s timestamp name pid parent_pid
    | none => addFreshProcess s timestamp name pid parent_pid

/-- `ProfileContext::handle_process_end` (lines 647–667): write the end time;
with recycling on, hand the recycling data back to the pool keyed by name
(the process entry itself stays in the map, with its recyclers taken). -/
def handle_process_end (s : ProfileContextM) (timestamp_raw pid : Nat) : ProfileContextM :=
  match alookup s.processes pid with
  | none => s
  | some process =>
    let timestamp := s.timestamp_converter.convert_time timestamp_raw
    let profile1 := s.profile.set_process_end_time process.handle timestamp
    match s.process_recycler with
    | some pool =>
      match take_recycling_data process with
      | some (data, process') =>
        { s with profile := profile1
                 processes := ainsert s.processes pid process'
                 process_recycler := some (pool ++ [(process.name, data)]) }
      | none => { s with profile := profile1 }
    | none => { s with profile := profile1 }

/-- The state threaded through the drain loop of `handle_user_stack`: the
thread's context-switch data (borrowed mutably), the process map, the
unresolved-stack interning table and the stack-sample counter. -/
structure DrainState where
  context_switch_data : ThreadContextSwitchData
  processes : List (Nat × ProcessStateM)
  unresolved_stacks : List (List StackFrame)
  stack_sample_count : Nat

/-- The off-cpu-group half of one iteration of the drain loop of
`handle_user_stack` (lines 1017–1061): consume the accumulated CPU delta,
emit the "first sample" at the begin of the paused range, and, when the
group has more than one sample, a "rest sample" at its end with weight
`i32::try_from(sample_count - 1).unwrap_or(0)`.  `Except.error` is the
`let Some(process) = … else return;` early return. -/
def stepPendingOff (conv : TimestampConverter) (pid thread_handle : Nat)
    (user_stack_index : Nat) (ds : DrainState) (grp : Option OffCpuSampleGroup) :
    Except DrainState DrainState :=
  match grp with
  | none => Except.ok ds
  | some g =>
    let consumed := consume_cpu_delta ds.context_switch_data
    let cpu_delta := consumed.1 * conv.raw_to_ns_factor
    let ds := { ds with context_switch_data := consumed.2 }
    match alookup ds.processes pid with
    | none => Except.error ds
    | some proc =>
      let firstSample : SampleRec :=
        ⟨thread_handle, conv.convert_time g.begin_timestamp, g.begin_timestamp,
          user_stack_index, cpu_delta, 1⟩
      let restSamples : List SampleRec :=
        if 1 < g.sample_count then
          [⟨thread_handle, conv.convert_time g.end_timestamp, g.end_timestamp,
            user_stack_index, 0,
            if g.sample_count - 1 ≤ 2147483647 then ((g.sample_count - 1 : Nat) : Int)
            else 0⟩]
        else []
      let proc1 := { proc with unresolved_samples :=
        proc.unresolved_samples ++ [firstSample] ++ restSamples }
      Except.ok { ds with processes := ainsert ds.processes pid proc1 }

/-- The on-cpu half of one drain iteration (lines 1063–1096): emit a sample
at the pending stack's timestamp; with an attached kernel stack the combined
stack is `kernel ++ user`. -/
def stepPendingOn (conv : TimestampConverter) (pid thread_handle : Nat)
    (user_stack : List StackFrame) (user_stack_index : Nat) (timestamp_raw : Nat)
    (kernel_stack : Option (List StackFrame)) (delta : Option Nat)
    (ds : DrainState) : Except DrainState DrainState :=
  let timestamp := conv.convert_time timestamp_raw
  match delta with
  | none => Except.ok ds
  | some cpu_delta =>
    match kernel_stack with
    | some ks =>
      let combined_stack := ks ++ user_stack
      let conv1 := convertStack ds.unresolved_stacks combined_stack.reverse
      let ds := { ds with unresolved_stacks := conv1.2 }
      match alookup ds.processes pid with
      | none => Except.error ds
      | some proc =>
        Except.ok { ds with
          processes := ainsert ds.processes pid
            ({ proc with unresolved_samples := proc.unresolved_samples ++
                [⟨thread_handle, timestamp, timestamp_raw, conv1.1, cpu_delta, 1⟩] })
          stack_sample_count := ds.stack_sample_count + 1 }
    | none =>
      match alookup ds.processes pid with
      | none => Except.error ds
      | some proc =>
        Except.ok { ds with
          processes := ainsert ds.processes pid
            ({ proc with unresolved_samples := proc.unresolved_samples ++
                [⟨thread_handle, timestamp, timestamp_raw, user_stack_index, cpu_delta, 1⟩] })
          stack_sample_count := ds.stack_sample_count + 1 }

/-- One iteration of the drain loop of `handle_user_stack`
(lines 1008–1097): the off-cpu-group half followed by the on-cpu half. -/
def stepPending (conv : TimestampConverter) (pid thread_handle : Nat)
    (user_stack : List StackFrame) (user_stack_index : Nat)
    (ds : DrainState) (p : PendingStack) : Except DrainState DrainState :=
  match stepPendingOff conv pid thread_handle user_stack_index ds p.off_cpu_sample_group with
  | Except.error dsStop => Except.error dsStop
  | Except.ok ds =>
    stepPendingOn conv pid thread_handle user_stack user_stack_index p.timestamp
      p.kernel_stack p.on_cpu_sample_cpu_delta ds

/-- The drain loop over the collected pending stacks. -/
def processPending (conv : TimestampConverter) (pid thread_handle : Nat)
    (user_stack : List StackFrame) (user_stack_index : Nat) :
    DrainState → List PendingStack → DrainState
  | ds, [] => ds
  | ds, p :: rest =>
    match stepPending conv pid thread_handle user_stack user_stack_index ds p with
    | Except.error dsStop => dsStop
    | Except.ok ds1 =>
      processPending conv pid thread_handle user_stack user_stack_index ds1 rest

/-- `ProfileContext::handle_user_stack` (lines 979–1098): intern the user
stack, drain the thread's pending stacks with timestamp `≤ event timestamp`
(a `take_while` on the queue), and run the drain loop. -/
def handle_user_stack (s : ProfileContextM) (timestamp_raw pid tid : Nat)
    (stack : List StackFrame) : ProfileContextM :=
  let user_stack := stack
  let conv0 := convertStack s.unresolved_stacks user_stack.reverse
  let user_stack_index := conv0.1
  let s := { s with unresolved_stacks := conv0.2 }
  match alookup s.threads tid with
  | none => s
  | some thread =>
    let num_pending_stacks :=
      (thread.pending_stacks.takeWhile (fun p => decide (p.timestamp ≤ timestamp_raw))).length
    let pending := thread.pending_stacks.take num_pending_stacks
    let thread1 := { thread with
      pending_stacks := thread.pending_stacks.drop num_pending_stacks }
    let ds0 : DrainState :=
      ⟨thread1.context_switch_data, s.processes, s.unresolved_stacks, s.stack_sample_count⟩
    let ds1 := processPending s.timestamp_converter pid thread1.handle user_stack
      user_stack_index ds0 pending
    { s with
      threads := ainsert s.threads tid
        { thread1 with context_switch_data := ds1.context_switch_data }
      processes := ds1.processes
      unresolved_stacks := ds1.unresolved_stacks
      stack_sample_count := ds1.stack_sample_count }

/-- A spec-level view of an emitted sample: like `SampleRec` but carrying the
(reversed) frame sequence itself instead of an interned index. -/
structure SpecSample where
  thread_handle : Nat
  timestamp : Nat
  timestamp_raw : Nat
  stack_rev : List StackFrame
  cpu_delta : Nat
  weight : Int
deriving DecidableEq

/-- Resolve a `SampleRec`'s interned stack index against an interning table,
yielding the spec-level view. -/
def viewSample (table : List (List StackFrame)) (r : SampleRec) : SpecSample :=
  ⟨r.thread_handle, r.timestamp, r.timestamp_raw, (table[r.stack_index]?).getD [],
    r.cpu_delta, r.weight⟩

/-- The samples the claim says `handle_user_stack` emits for the drained
pending stacks, written from the claim's words (threading the leftover
accumulated raw CPU delta, which the first off-cpu group consumes): for an
off-cpu group, one sample at the group's begin timestamp carrying the
leftover delta and, when the group has more than one sample, a second sample
at the group's end timestamp with zero delta and weight `count-1` (0 when
`count-1` does not fit an `i32` — the amendment); for an on-cpu delta, one
sample at the pending stack's timestamp whose stack is `kernel ++ user` when
a kernel stack was attached and just `user` otherwise. -/
def specDrainSamples (conv : TimestampConverter) (thread_handle : Nat)
    (user_stack : List StackFrame) :
    Nat → List PendingStack → List SpecSample
  | _, [] => []
  | acc, p :: rest =>
    let offPart : List SpecSample × Nat :=
      match p.off_cpu_sample_group with
      | some g =>
        (⟨thread_handle, conv.convert_time g.begin_timestamp, g.begin_timestamp,
            user_stack.reverse, acc * conv.raw_to_ns_factor, 1⟩ ::
          (if 1 < g.sample_count then
            [⟨thread_handle, conv.convert_time g.end_timestamp, g.end_timestamp,
              user_stack.reverse, 0,
              if g.sample_count - 1 ≤ 2147483647 then ((g.sample_count - 1 : Nat) : Int)
              else 0⟩]
          else []), 0)
      | none => ([], acc)
    let onPart : List SpecSample :=
      match p.on_cpu_sample_cpu_delta with
      | none => []
      | some d =>
        match p.kernel_stack with
        | some ks =>
          [⟨thread_handle, conv.convert_time p.timestamp, p.timestamp,
            (ks ++ user_stack).reverse, d, 1⟩]
        | none =>
          [⟨thread_handle, conv.convert_time p.timestamp, p.timestamp,
            user_stack.reverse, d, 1⟩]
    offPart.1 ++ onPart ++ specDrainSamples conv thread_handle user_stack offPart.2 rest

/-- One interning table extends another: every defined index keeps its value. -/
def tableExtends (t t' : List (List StackFrame)) : Prop :=
  ∀ (i : Nat) (x : List StackFrame), t[i]? = some x → t'[i]? = some x

/-- `ProfileContext::new`, restricted to the state the claims touch:
empty maps, a recycler iff `reuse_threads`, and a dummy timestamp converter
(replaced on the header event). -/
def initialContext (reuse_threads : Bool) (fn : String → String → String) :
    ProfileContextM :=
  { profile := ⟨0, 0, [], [], []⟩
    processes := []
    dead_processes_with_reused_pids := []
    threads := []
    dead_threads_with_reused_tids := []
    unresolved_stacks := []
    process_recycler := if reuse_threads then some [] else none
    included_processes := none
    make_process_name_fn := fn
    timestamp_converter := ⟨0, 1⟩
    sample_count := 0
    stack_sample_count := 0
    main_thread_only := false }

/-! ## Concrete instances used by witnesses and counterexamples -/

instance {ε α : Type} [DecidableEq ε] [DecidableEq α] : DecidableEq (Except ε α) := fun a b =>
  match a, b with
  | Except.error x, Except.error y =>
    if h : x = y then isTrue (by rw [h]) else isFalse (fun hh => by cases hh; exact h rfl)
  | Except.error _, Except.ok _ => isFalse (fun hh => by cases hh)
  | Except.ok _, Except.error _ => isFalse (fun hh => by cases hh)
  | Except.ok x, Except.ok y =>
    if h : x = y then isTrue (by rw [h]) else isFalse (fun hh => by cases hh; exact h rfl)

/-- A concrete `ExternalFns` instance: identity byte-string transformers. -/
def extId : ExternalFns := ⟨id, id⟩

/-- A small object file: one named text symbol at address 16 inside the text
section `[16, 32)`; the entry point coincides with the symbol. -/
def objNamed : ObjectFileModel :=
  { sections := [⟨1, ObjSectionKind.text, false, 16, 16⟩]
    symbols := [⟨16, 0, ObjSymbolKind.text, some 1, some [97]⟩]
    dynamic_symbols := []
    exports := none
    entry := 16 }

def mapNamed : SymbolMapModel :=
  { entries := buildEntries objNamed 0 none none
    debug_id := 0
    object_map := []
    context := none
    svma_file_ranges := [⟨0, 0, 64⟩]
    image_base_address := 0 }

/-- The same object but with a symbol whose `name_bytes()` errs. -/
def objBadName : ObjectFileModel :=
  { objNamed with symbols := [⟨16, 0, ObjSymbolKind.text, some 1, none⟩] }

def mapBadName : SymbolMapModel :=
  { mapNamed with entries := buildEntries objBadName 0 none none }

/-- `mapNamed` with an object-map entry covering SVMA 16 whose external file
name byte string `[0xFF]` is not valid UTF-8. -/
def mapBadUtf8 : SymbolMapModel :=
  { mapNamed with object_map := [⟨16, 16, [95, 102, 111, 111], [255]⟩] }

/-- A thread with a given pending-stack queue and accumulated raw CPU delta. -/
def threadWithPending (q : List PendingStack) (acc : Nat) : ThreadStateM :=
  { name := none
    is_main_thread := true
    handle := 7
    label_frame := 0
    pending_stacks := q
    context_switch_data := ⟨acc⟩
    thread_id := 2
    process_id := 1 }

def procEmpty : ProcessStateM :=
  { name := "p"
    handle := 0
    seen_main_thread_start := true
    unresolved_samples := []
    regular_lib_mapping_ops := []
    jit_lib_mapping_ops := []
    main_thread_handle := 0
    main_thread_label_frame := 0
    memory_usage := none
    process_id := 1
    parent_id := 0
    thread_recycler := none
    jit_function_recycler := none }

def userFrame (n : Nat) : StackFrame := StackFrame.returnAddress n StackMode.user

/-- A profile-builder context with thread tid 2 (handle 7) holding queue `q`
and process pid 1. -/
def ctxDrain (q : List PendingStack) (acc : Nat) : ProfileContextM :=
  { initialContext false (fun a _ => a) with
    threads := [(2, threadWithPending q acc)]
    processes := [(1, procEmpty)] }

/-- A context whose single pending stack carries an off-cpu group with
`sample_count = 2^31 + 1`, so that `count - 1` does not fit an `i32`. -/
def ctxBigCount : ProfileContextM :=
  ctxDrain [⟨4, none, some ⟨1, 3, 2147483649⟩, none⟩] 0

/-- A pending-stack queue exercising all drain branches: an off-cpu group, an
on-cpu sample with an attached kernel stack, and one pending stack past the
event timestamp. -/
def pendingW : List PendingStack :=
  [⟨4, none, some ⟨1, 3, 5⟩, none⟩,
   ⟨6, some [userFrame 99], none, some 11⟩,
   ⟨20, none, none, some 12⟩]

def ctxDrainW : ProfileContextM := ctxDrain pendingW 42

/-- Two fat-binary slices with DebugIds 1 and 2. -/
def archesTwo : List FatArchModel := [⟨0, 100, true, some 1⟩, ⟨100, 50, true, some 2⟩]

/-- An object whose text section is so large that its end address does not
fit in `u32` and is silently dropped, leaving the named symbol as the last
table entry. -/
def objTail : ObjectFileModel :=
  { sections := [⟨1, ObjSectionKind.text, false, 16, 2 ^ 40⟩]
    symbols := [⟨16, 0, ObjSymbolKind.text, some 1, some [97]⟩]
    dynamic_symbols := []
    exports := none
    entry := 16 }

def mapTail : SymbolMapModel := { mapNamed with entries := buildEntries objTail 0 none none }

end Samply


namespace Samply

/-! # Theorems

## Stable sort and first-wins deduplication -/

theorem mem_insertByFst {β : Type} {e x : Nat × β} {l : List (Nat × β)} :
    x ∈ insertByFst e l ↔ x = e ∨ x ∈ l := by
  induction l with
  | nil => simp [insertByFst]
  | cons f rest ih =>
    simp only [insertByFst]
    split
    · rw [List.mem_cons, List.mem_cons, ih]
      tauto
    · simp only [List.mem_cons]

theorem pairwise_le_insertByFst {β : Type} {e : Nat × β} {l : List (Nat × β)}
    (h : l.Pairwise (fun a b => a.1 ≤ b.1)) :
    (insertByFst e l).Pairwise (fun a b => a.1 ≤ b.1) := by
  induction l with
  | nil => simp [insertByFst]
  | cons f rest ih =>
    rw [List.pairwise_cons] at h
    obtain ⟨hf, hrest⟩ := h
    simp only [insertByFst]
    split
    next hlt =>
      rw [List.pairwise_cons]
      refine ⟨fun x hx => ?_, ih hrest⟩
      rcases mem_insertByFst.mp hx with rfl | hx
      · omega
      · exact hf x hx
    next hlt =>
      rw [List.pairwise_cons]
      refine ⟨fun x hx => ?_, List.pairwise_cons.mpr ⟨hf, hrest⟩⟩
      rcases List.mem_cons.mp hx with rfl | hx
      · omega
      · exact Nat.le_trans (by omega) (hf x hx)

theorem pairwise_le_sortByFst {β : Type} (l : List (Nat × β)) :
    (sortByFst l).Pairwise (fun a b => a.1 ≤ b.1) := by
  induction l with
  | nil => simp [sortByFst]
  | cons e rest ih => exact pairwise_le_insertByFst ih

theorem filter_insertByFst {β : Type} (e : Nat × β) (l : List (Nat × β)) (a : Nat) :
    (insertByFst e l).filter (fun x => x.1 == a) =
      ((e :: l).filter (fun x => x.1 == a)) := by
  induction l with
  | nil => rfl
  | cons f rest ih =>
    simp only [insertByFst]
    split
    next hlt =>
      simp only [List.filter_cons, ih]
      by_cases pe : e.1 = a <;> by_cases pf : f.1 = a
      · exfalso; omega
      · simp [pe, pf]
      · simp [pe, pf]
      · simp [pe, pf]
    next hlt => rfl

theorem filter_sortByFst {β : Type} (l : List (Nat × β)) (a : Nat) :
    (sortByFst l).filter (fun x => x.1 == a) = l.filter (fun x => x.1 == a) := by
  induction l with
  | nil => rfl
  | cons e rest ih =>
    simp only [sortByFst]
    rw [filter_insertByFst]
    simp only [List.filter_cons, ih]

theorem find?_eq_head_filter {α : Type} (p : α → Bool) (l : List α) :
    l.find? p = (l.filter p).head? := by
  induction l with
  | nil => rfl
  | cons x rest ih =>
    by_cases hx : p x
    · rw [List.find?_cons_of_pos _ hx, List.filter_cons_of_pos hx]
      rfl
    · rw [List.find?_cons_of_neg _ hx, List.filter_cons_of_neg hx, ih]

theorem mem_dedupGo {β : Type} : ∀ (l : List (Nat × β)) (key : Nat) (x : Nat × β),
    x ∈ dedupGo key l → x ∈ l := by
  intro l
  induction l with
  | nil => intro key x h; cases h
  | cons f rest ih =>
    intro key x h
    rw [dedupGo] at h
    split at h
    · exact List.mem_cons_of_mem _ (ih key x h)
    · rcases List.mem_cons.mp h with rfl | h
      · exact List.mem_cons_self _ _
      · exact List.mem_cons_of_mem _ (ih f.1 x h)

theorem dedupGo_gt {β : Type} : ∀ (l : List (Nat × β)) (key : Nat),
    l.Pairwise (fun a b => a.1 ≤ b.1) → (∀ y ∈ l, key ≤ y.1) →
    ∀ x ∈ dedupGo key l, key < x.1 := by
  intro l
  induction l with
  | nil => intro key _ _ x h; cases h
  | cons f rest ih =>
    intro key hs hge x h
    rw [List.pairwise_cons] at hs
    rw [dedupGo] at h
    split at h
    next heq =>
      exact ih key hs.2 (fun y hy => hge y (List.mem_cons_of_mem _ hy)) x h
    next hne =>
      have hkf : key < f.1 := by
        have := hge f (List.mem_cons_self _ _)
        simp only [beq_iff_eq] at hne
        omega
      rcases List.mem_cons.mp h with rfl | h
      · exact hkf
      · have := ih f.1 hs.2 (fun y hy => hs.1 y hy) x h
        omega

theorem pairwise_lt_dedupGo {β : Type} : ∀ (l : List (Nat × β)) (key : Nat),
    l.Pairwise (fun a b => a.1 ≤ b.1) →
    (dedupGo key l).Pairwise (fun a b => a.1 < b.1) := by
  intro l
  induction l with
  | nil => intro key _; exact List.Pairwise.nil
  | cons f rest ih =>
    intro key hs
    rw [List.pairwise_cons] at hs
    rw [dedupGo]
    split
    · exact ih key hs.2
    · rw [List.pairwise_cons]
      exact ⟨dedupGo_gt rest f.1 hs.2 hs.1, ih f.1 hs.2⟩

theorem pairwise_lt_dedupByFst {β : Type} (l : List (Nat × β))
    (h : l.Pairwise (fun a b => a.1 ≤ b.1)) :
    (dedupByFst l).Pairwise (fun a b => a.1 < b.1) := by
  cases l with
  | nil => exact List.Pairwise.nil
  | cons e rest =>
    rw [List.pairwise_cons] at h
    rw [dedupByFst, List.pairwise_cons]
    exact ⟨dedupGo_gt rest e.1 h.2 h.1, pairwise_lt_dedupGo rest e.1 h.2⟩

theorem find?_dedupGo {β : Type} : ∀ (l : List (Nat × β)) (key a : Nat), key ≠ a →
    (dedupGo key l).find? (fun x => x.1 == a) = l.find? (fun x => x.1 == a) := by
  intro l
  induction l with
  | nil => intro key a _; rfl
  | cons f rest ih =>
    intro key a hne
    rw [dedupGo]
    split
    next heq =>
      have hf : f.1 = key := by simpa using heq
      rw [ih key a hne, List.find?_cons_of_neg _ (by simp [hf]; omega)]
    next hne2 =>
      by_cases hfa : f.1 = a
      · rw [List.find?_cons_of_pos _ (by simpa using hfa),
          List.find?_cons_of_pos _ (by simpa using hfa)]
      · rw [List.find?_cons_of_neg _ (by simpa using hfa),
          List.find?_cons_of_neg _ (by simpa using hfa), ih f.1 a hfa]

theorem find?_dedupByFst {β : Type} (l : List (Nat × β)) (a : Nat) :
    (dedupByFst l).find? (fun x => x.1 == a) = l.find? (fun x => x.1 == a) := by
  cases l with
  | nil => rfl
  | cons e rest =>
    rw [dedupByFst]
    by_cases hea : e.1 = a
    · rw [List.find?_cons_of_pos _ (by simpa using hea),
        List.find?_cons_of_pos _ (by simpa using hea)]
    · rw [List.find?_cons_of_neg _ (by simpa using hea),
        List.find?_cons_of_neg _ (by simpa using hea), find?_dedupGo rest e.1 a hea]

theorem find?_of_mem_pairwise_lt {β : Type} {l : List (Nat × β)} {a : Nat} {k : β}
    (hs : l.Pairwise (fun x y => x.1 < y.1)) (hm : (a, k) ∈ l) :
    l.find? (fun x => x.1 == a) = some (a, k) := by
  induction l with
  | nil => cases hm
  | cons e rest ih =>
    rw [List.pairwise_cons] at hs
    rcases List.mem_cons.mp hm with rfl | hm'
    · rw [List.find?_cons_of_pos _ (by simp)]
    · have hlt : e.1 < a := hs.1 (a, k) hm'
      rw [List.find?_cons_of_neg _ (by simp; omega)]
      exact ih hs.2 hm'

/-! ## Shapes of the pre-sort entry regions -/

theorem mem_symbolEntries_shape {o : ObjectFileModel} {base : Nat}
    {x : Nat × FullSymbolListEntry} (h : x ∈ symbolEntries o base) :
    ∃ nb, x.2 = FullSymbolListEntry.symbol nb := by
  simp only [symbolEntries, List.mem_filterMap, Option.map_eq_some'] at h
  obtain ⟨s, _, _, _, hx⟩ := h
  exact ⟨s.name_bytes, by rw [← hx]⟩

theorem mem_exportEntries_shape {o : ObjectFileModel} {base : Nat}
    {x : Nat × FullSymbolListEntry} (h : x ∈ exportEntries o base) :
    ∃ nb, x.2 = FullSymbolListEntry.exportEntry nb := by
  unfold exportEntries at h
  cases hexp : o.exports with
  | none => rw [hexp] at h; cases h
  | some exps =>
    rw [hexp] at h
    simp only [List.mem_map] at h
    obtain ⟨e, _, hx⟩ := h
    exact ⟨e.name, by rw [← hx]⟩

theorem mem_synthesizedEntries_shape {fsa : Option (List Nat)}
    {x : Nat × FullSymbolListEntry} (h : x ∈ synthesizedEntries fsa) :
    x.2 = FullSymbolListEntry.synthesized := by
  unfold synthesizedEntries at h
  cases fsa with
  | none => cases h
  | some l =>
    simp only [List.mem_map] at h
    obtain ⟨a, _, hx⟩ := h
    rw [← hx]

theorem mem_entryPointEntries_shape {o : ObjectFileModel} {base : Nat}
    {x : Nat × FullSymbolListEntry} (h : x ∈ entryPointEntries o base) :
    x.2 = FullSymbolListEntry.synthesizedEntryPoint := by
  unfold entryPointEntries at h
  split at h
  · cases h
  · rcases List.mem_singleton.mp h with rfl
    rfl

theorem mem_sectionEndEntries_shape {o : ObjectFileModel} {base : Nat}
    {x : Nat × FullSymbolListEntry} (h : x ∈ sectionEndEntries o base) :
    x.2 = FullSymbolListEntry.endAddress := by
  simp only [sectionEndEntries, List.mem_filterMap] at h
  obtain ⟨s, _, hx⟩ := h
  split at hx
  · simp only [Option.map_eq_some'] at hx
    obtain ⟨_, _, hx⟩ := hx
    rw [← hx]
  · cases hx

theorem mem_symbolEndEntries_shape {o : ObjectFileModel} {base : Nat}
    {x : Nat × FullSymbolListEntry} (h : x ∈ symbolEndEntries o base) :
    x.2 = FullSymbolListEntry.endAddress := by
  simp only [symbolEndEntries, List.mem_filterMap] at h
  obtain ⟨s, _, hx⟩ := h
  split at hx
  · simp only [Option.map_eq_some'] at hx
    obtain ⟨_, _, hx⟩ := hx
    rw [← hx]
  · cases hx

theorem mem_functionEndEntries_shape {fea : Option (List Nat)}
    {x : Nat × FullSymbolListEntry} (h : x ∈ functionEndEntries fea) :
    x.2 = FullSymbolListEntry.endAddress := by
  unfold functionEndEntries at h
  cases fea with
  | none => cases h
  | some l =>
    simp only [List.mem_map] at h
    obtain ⟨a, _, hx⟩ := h
    rw [← hx]

/-- A `Symbol` entry of the pre-sort list can only come from the
symbol region (steps 1–2), and an `Export` entry only from step 3. -/
theorem symbol_mem_pre_region {o : ObjectFileModel} {base : Nat}
    {fsa fea : Option (List Nat)} {a : Nat} {nb : Option (List Nat)}
    (h : (a, FullSymbolListEntry.symbol nb) ∈ preEntries o base fsa fea) :
    (a, FullSymbolListEntry.symbol nb) ∈ symbolEntries o base := by
  unfold preEntries at h
  repeat rw [List.mem_append] at h
  rcases h with ((((((h | h) | h) | h) | h) | h) | h)
  · exact h
  · obtain ⟨nb', hk⟩ := mem_exportEntries_shape h; cases hk
  · have hk := mem_synthesizedEntries_shape h; cases hk
  · have hk := mem_entryPointEntries_shape h; cases hk
  · have hk := mem_sectionEndEntries_shape h; cases hk
  · have hk := mem_symbolEndEntries_shape h; cases hk
  · have hk := mem_functionEndEntries_shape h; cases hk

theorem exportEntry_mem_pre_region {o : ObjectFileModel} {base : Nat}
    {fsa fea : Option (List Nat)} {a : Nat} {nb : List Nat}
    (h : (a, FullSymbolListEntry.exportEntry nb) ∈ preEntries o base fsa fea) :
    (a, FullSymbolListEntry.exportEntry nb) ∈ exportEntries o base := by
  unfold preEntries at h
  repeat rw [List.mem_append] at h
  rcases h with ((((((h | h) | h) | h) | h) | h) | h)
  · obtain ⟨nb', hk⟩ := mem_symbolEntries_shape h; cases hk
  · exact h
  · have hk := mem_synthesizedEntries_shape h; cases hk
  · have hk := mem_entryPointEntries_shape h; cases hk
  · have hk := mem_sectionEndEntries_shape h; cases hk
  · have hk := mem_symbolEndEntries_shape h; cases hk
  · have hk := mem_functionEndEntries_shape h; cases hk

/-! ## Claim C1 -/

/-- C1: For every AddressEntry table built by `ObjectSymbolMapInnerImpl::new`,
the entries vector has strictly increasing addresses and at most one entry
per address (Nodup keys); the survivor at every address is the first entry
inserted for that address — insertion order is the priority order
Symbols > Exports > Synthesized > EntryPoint > EndAddress, enforced by the
stable sort followed by first-wins deduplication (conjunct 3); in particular
at any address where both a Symbol/Export entry and a Synthesized entry were
inserted, the surviving entry is never the Synthesized one (conjunct 4). -/
theorem c1_entry_table_invariants (o : ObjectFileModel) (base : Nat)
    (fsa fea : Option (List Nat)) :
    (buildEntries o base fsa fea).Pairwise (fun x y => x.1 < y.1) ∧
    ((buildEntries o base fsa fea).map Prod.fst).Nodup ∧
    (∀ a : Nat, (buildEntries o base fsa fea).find? (fun x => x.1 == a) =
      (preEntries o base fsa fea).find? (fun x => x.1 == a)) ∧
    (∀ (a : Nat) (k : FullSymbolListEntry), (a, k) ∈ buildEntries o base fsa fea →
      ((∃ nb, (a, FullSymbolListEntry.symbol nb) ∈ preEntries o base fsa fea) ∨
       (∃ nb, (a, FullSymbolListEntry.exportEntry nb) ∈ preEntries o base fsa fea)) →
      k ≠ FullSymbolListEntry.synthesized) := by
  have hlt : (buildEntries o base fsa fea).Pairwise (fun x y => x.1 < y.1) :=
    pairwise_lt_dedupByFst _ (pairwise_le_sortByFst _)
  have hfind : ∀ a : Nat, (buildEntries o base fsa fea).find? (fun x => x.1 == a) =
      (preEntries o base fsa fea).find? (fun x => x.1 == a) := by
    intro a
    rw [buildEntries, find?_dedupByFst, find?_eq_head_filter, filter_sortByFst,
      ← find?_eq_head_filter]
  refine ⟨hlt, ?_, hfind, ?_⟩
  · exact List.Pairwise.map Prod.fst (fun a b h => Nat.ne_of_lt h) hlt
  · intro a k hk hins
    have hpre : (preEntries o base fsa fea).find? (fun x => x.1 == a) = some (a, k) := by
      rw [← hfind a]
      exact find?_of_mem_pairwise_lt hlt hk
    simp only [preEntries, List.append_assoc] at hpre
    rw [List.find?_append, List.find?_append] at hpre
    cases hc1 : (symbolEntries o base).find? (fun x => x.1 == a) with
    | some y =>
      rw [hc1] at hpre
      simp only [Option.or] at hpre
      obtain rfl : y = (a, k) := by simpa using hpre
      obtain ⟨nb, hshape⟩ := mem_symbolEntries_shape (List.mem_of_find?_eq_some hc1)
      intro hcontra
      rw [hcontra] at hshape
      simp at hshape
    | none =>
      rw [hc1] at hpre
      simp only [Option.or] at hpre
      cases hc2 : (exportEntries o base).find? (fun x => x.1 == a) with
      | some y =>
        rw [hc2] at hpre
        simp only [Option.or] at hpre
        obtain rfl : y = (a, k) := by simpa using hpre
        obtain ⟨nb, hshape⟩ := mem_exportEntries_shape (List.mem_of_find?_eq_some hc2)
        intro hcontra
        rw [hcontra] at hshape
        simp at hshape
      | none =>
        rcases hins with ⟨nb, hmem⟩ | ⟨nb, hmem⟩
        · have hmem1 := symbol_mem_pre_region hmem
          have := List.find?_eq_none.mp hc1 _ hmem1
          simp at this
        · have hmem1 := exportEntry_mem_pre_region hmem
          have := List.find?_eq_none.mp hc2 _ hmem1
          simp at this

/-- Witness for C1 at a concrete object: the symbol at address 16 and a
synthesized function start at the same address 16 are both inserted; the
survivor at 16 is the Symbol entry, not the Synthesized one. -/
theorem c1_entry_table_invariants_witness :
    ((16, FullSymbolListEntry.symbol (some [97])) ∈ buildEntries objNamed 0 (some [16, 20]) none) ∧
    (16, FullSymbolListEntry.synthesized) ∈ preEntries objNamed 0 (some [16, 20]) none ∧
    FullSymbolListEntry.symbol (some [97]) ≠ FullSymbolListEntry.synthesized :=
  ⟨by decide, by decide,
    (c1_entry_table_invariants objNamed 0 (some [16, 20]) none).2.2.2 16
      (FullSymbolListEntry.symbol (some [97])) (by decide)
      (Or.inl ⟨some [97], by decide⟩)⟩

/-! ## Floor/successor characterization of the binary search -/

theorem key_inj_of_pairwise_lt {l : List (Nat × FullSymbolListEntry)}
    (hs : l.Pairwise (fun x y => x.1 < y.1)) {x y : Nat × FullSymbolListEntry}
    (hx : x ∈ l) (hy : y ∈ l) (hxy : x.1 = y.1) : x = y := by
  induction l with
  | nil => cases hx
  | cons e rest ih =>
    rw [List.pairwise_cons] at hs
    rcases List.mem_cons.mp hx with rfl | hx' <;> rcases List.mem_cons.mp hy with rfl | hy'
    · rfl
    · have := hs.1 y hy'; omega
    · have := hs.1 x hx'; omega
    · exact ih hs.2 hx' hy'

theorem findEntryAndNext_spec :
    ∀ (l : List (Nat × FullSymbolListEntry)) (A : Nat) (E : Nat × FullSymbolListEntry),
    l.Pairwise (fun x y => x.1 < y.1) → isFloor l A E →
    ∃ nxt, findEntryAndNext l A = some (E, nxt) ∧
      ∀ E', isSucc l E E' → nxt = some E' := by
  intro l
  induction l with
  | nil =>
    intro A E _ hf
    cases hf.1
  | cons e1 tl ih =>
    intro A E hs hf
    cases tl with
    | nil =>
      obtain rfl : E = e1 := by
        rcases List.mem_singleton.mp hf.1 with rfl; rfl
      refine ⟨none, ?_, ?_⟩
      · rw [findEntryAndNext, if_pos hf.2.1]
      · intro E' hsucc
        rcases List.mem_singleton.mp hsucc.1 with rfl
        exact absurd hsucc.2.1 (by omega)
    | cons e2 rest =>
      rw [List.pairwise_cons] at hs
      by_cases h2 : e2.1 ≤ A
      · -- recurse into the tail
        have hE : E ∈ e2 :: rest := by
          rcases List.mem_cons.mp hf.1 with rfl | h
          · exfalso
            have := hf.2.2 e2 (List.mem_cons_of_mem _ (List.mem_cons_self _ _)) h2
            have := hs.1 e2 (List.mem_cons_self _ _)
            omega
          · exact h
        have hf' : isFloor (e2 :: rest) A E :=
          ⟨hE, hf.2.1, fun F hF hFA => hf.2.2 F (List.mem_cons_of_mem _ hF) hFA⟩
        obtain ⟨nxt, heq, hnxt⟩ := ih A E hs.2 hf'
        refine ⟨nxt, ?_, ?_⟩
        · rw [findEntryAndNext, if_pos h2]
          exact heq
        · intro E' hsucc
          have hE2 : e2.1 ≤ E.1 := by
            rcases List.mem_cons.mp hE with rfl | h
            · omega
            · have := (List.pairwise_cons.mp hs.2).1 E h
              omega
          have hE' : E' ∈ e2 :: rest := by
            rcases List.mem_cons.mp hsucc.1 with heq | h
            · exfalso
              have h1 := hs.1 E hE
              have h2 := hsucc.2.1
              rw [heq] at h2
              omega
            · exact h
          exact hnxt E' ⟨hE', hsucc.2.1,
            fun F hF hFgt => hsucc.2.2 F (List.mem_cons_of_mem _ hF) hFgt⟩
      · -- the floor is e1 and the next entry is e2
        obtain rfl : E = e1 := by
          rcases List.mem_cons.mp hf.1 with rfl | h
          · rfl
          · exfalso
            have he2 : e2.1 ≤ E.1 := by
              rcases List.mem_cons.mp h with rfl | h'
              · omega
              · have := (List.pairwise_cons.mp hs.2).1 E h'
                omega
            have := hf.2.1
            omega
        refine ⟨some e2, ?_, ?_⟩
        · rw [findEntryAndNext, if_neg h2, if_pos hf.2.1]
        · intro E' hsucc
          have hlt12 : E.1 < e2.1 := hs.1 e2 (List.mem_cons_self _ _)
          have hle : E'.1 ≤ e2.1 :=
            hsucc.2.2 e2 (List.mem_cons_of_mem _ (List.mem_cons_self _ _)) hlt12
          have hge : e2.1 ≤ E'.1 := by
            have hEE := hsucc.2.1
            rcases List.mem_cons.mp hsucc.1 with heq | h
            · rw [heq] at hEE; omega
            · rcases List.mem_cons.mp h with heq | h'
              · rw [heq]
              · have := (List.pairwise_cons.mp hs.2).1 E' h'
                omega
          have : E' = e2 := key_inj_of_pairwise_lt
            (List.pairwise_cons.mpr hs) hsucc.1
            (List.mem_cons_of_mem _ (List.mem_cons_self _ _)) (by omega)
          rw [this]

theorem findEntryAndNext_last :
    ∀ (l : List (Nat × FullSymbolListEntry)) (h : l ≠ [])
    (A : Nat), l.Pairwise (fun x y => x.1 ≤ y.1) → (l.getLast h).1 ≤ A →
    findEntryAndNext l A = some (l.getLast h, none) := by
  intro l
  induction l with
  | nil => intro h; exact absurd rfl h
  | cons e1 tl ih =>
    intro _ A hs hA
    cases tl with
    | nil =>
      rw [List.getLast_singleton] at hA ⊢
      rw [findEntryAndNext, if_pos hA]
    | cons e2 rest =>
      rw [List.pairwise_cons] at hs
      have hlast : ((e1 :: e2 :: rest).getLast (by simp)) = ((e2 :: rest).getLast (by simp)) :=
        List.getLast_cons (by simp)
      rw [hlast] at hA ⊢
      have h2 : e2.1 ≤ A := by
        have hmem := List.getLast_mem (l := e2 :: rest) (by simp)
        rcases List.mem_cons.mp hmem with heq | h
        · rw [← heq]; exact hA
        · have := (List.pairwise_cons.mp hs.2).1 _ h
          omega
      rw [findEntryAndNext, if_pos h2]
      exact ih (by simp) A hs.2 hA

/-! ## Claim C2 -/

/-- C2 counterexample: the claim as stated fails when the floor entry is a
Symbol whose name bytes cannot be read.  In the table built from
`objBadName`, the floor entry of address 16 is the Symbol entry `(16, symbol
none)` — not an EndAddress — and it has the successor `(32, endAddress)`, yet
`lookup_relative_address(16)` returns `None` rather than symbol information
with address 16 and size 16. -/
theorem c2_counterexample :
    isFloor mapBadName.entries 16 (16, FullSymbolListEntry.symbol none) ∧
    isSucc mapBadName.entries (16, FullSymbolListEntry.symbol none)
      (32, FullSymbolListEntry.endAddress) ∧
    (16, FullSymbolListEntry.symbol none).2 ≠ FullSymbolListEntry.endAddress ∧
    lookup_relative_address extId mapBadName 16 = PanicOr.ok none := by
  refine ⟨?_, ?_, ?_, ?_⟩ <;> decide

/-- C2 (amended): for every relative address A whose floor entry E is not an
EndAddress, *whose name can be produced* (for a Symbol entry the name bytes
must be readable — the amendment), and which has a successor E', lookup
returns symbol information with address `E.addr` and size `E'.addr − E.addr`
(and `E.addr ≤ A < E'.addr`), provided the frames computation does not panic
(see C3); and for every address whose floor entry is an EndAddress, lookup
returns `None`. -/
theorem c2_lookup_floor_and_size (ext : ExternalFns) (m : SymbolMapModel) (A : Nat)
    (hs : m.entries.Pairwise (fun x y => x.1 < y.1)) :
    (∀ (E E' : Nat × FullSymbolListEntry) (nm : List Nat),
      isFloor m.entries A E → isSucc m.entries E E' →
      E.2.name ext E.1 = some nm →
      framesLookup m (m.image_base_address + A) ≠ PanicOr.panicked →
      E.1 ≤ A ∧ A < E'.1 ∧
      ∃ info, lookup_relative_address ext m A = PanicOr.ok (some info) ∧
        info.symbol.address = E.1 ∧ info.symbol.size = some (E'.1 - E.1)) ∧
    (∀ E : Nat × FullSymbolListEntry, isFloor m.entries A E →
      E.2 = FullSymbolListEntry.endAddress →
      lookup_relative_address ext m A = PanicOr.ok none) := by
  constructor
  · intro E E' nm hf hsucc hnm hnp
    obtain ⟨nxt, hfind, hnxt⟩ := findEntryAndNext_spec m.entries A E hs hf
    have hnxt' := hnxt E' hsucc
    subst hnxt'
    refine ⟨hf.2.1, ?_, ?_⟩
    · by_contra hcon
      push_neg at hcon
      have h1 := hf.2.2 E' hsucc.1 hcon
      have h2 := hsucc.2.1
      omega
    · cases hfr : framesLookup m (m.image_base_address + A) with
      | panicked => exact absurd hfr hnp
      | ok frames =>
        refine ⟨⟨⟨E.1, some (E'.1 - E.1), ext.demangle_any nm⟩, frames⟩, ?_, rfl, rfl⟩
        simp only [lookup_relative_address, hfind, hnm, hfr]
  · intro E hf hend
    obtain ⟨nxt, hfind, _⟩ := findEntryAndNext_spec m.entries A E hs hf
    have hname : E.2.name ext E.1 = none := by
      rw [hend]
      rfl
    cases nxt with
    | none => simp [lookup_relative_address, hfind, hname]
    | some e' => simp [lookup_relative_address, hfind, hname]

/-- Witness for the amended C2 on the table built from `objNamed`: the floor
entry of address 20 is the named symbol at 16 with successor 32, and lookup
returns address 16 with size 16. -/
theorem c2_lookup_floor_and_size_witness :
    mapNamed.entries.Pairwise (fun x y => x.1 < y.1) ∧
    (16 ≤ 20 ∧ 20 < 32 ∧
      ∃ info, lookup_relative_address extId mapNamed 20 = PanicOr.ok (some info) ∧
        info.symbol.address = 16 ∧ info.symbol.size = some 16) :=
  ⟨by decide,
    (c2_lookup_floor_and_size extId mapNamed 20 (by decide)).1
      (16, FullSymbolListEntry.symbol (some [97])) (32, FullSymbolListEntry.endAddress) [97]
      (by decide) (by decide) (by decide) (by decide)⟩

/-! ## Claim C3 -/

/-- C3: lookups are *not* panic-free.  On `mapBadUtf8`, whose object map
covers SVMA 16 with an external file name that is not valid UTF-8 (`[0xFF]`)
and which has no DWARF context, `lookup_relative_address(16)` reaches
`std::str::from_utf8(external_file_name).unwrap()` and panics, contradicting
the spec's "Lookup-time failures never raise". -/
theorem c3_lookup_panics_on_bad_utf8 :
    lookup_relative_address extId mapBadUtf8 16 = PanicOr.panicked := by decide

/-! ## Claim C9 -/

/-- C9: for every relative address A representable in u32 (and whose svma
computation does not overflow u64), `lookup_svma(image_base + A)` returns
exactly `lookup_relative_address(A)`. -/
theorem c9_lookup_svma_agrees (ext : ExternalFns) (m : SymbolMapModel) (A : Nat)
    (hA : A < 2 ^ 32) (_hoverflow : m.image_base_address + A < 2 ^ 64) :
    lookup_svma ext m (m.image_base_address + A) = lookup_relative_address ext m A := by
  rw [lookup_svma, if_pos (by constructor <;> omega)]
  have harg : m.image_base_address + A - m.image_base_address = A := by omega
  rw [harg]

theorem c9_lookup_svma_agrees_witness :
    20 < 2 ^ 32 ∧ mapNamed.image_base_address + 20 < 2 ^ 64 ∧
    lookup_svma extId mapNamed (mapNamed.image_base_address + 20) =
      lookup_relative_address extId mapNamed 20 :=
  ⟨by decide, by decide, c9_lookup_svma_agrees extId mapNamed 20 (by decide) (by decide)⟩

/-! ## Claim C10 -/

/-- C10: on a non-empty (sorted) entry table, every address at or past the
last entry's address misses: a lookup needs a successor entry to bound the
function size, so the final entry — even a named Symbol or Export — is never
returned. -/
theorem c10_last_entry_never_returned (ext : ExternalFns) (m : SymbolMapModel)
    (h : m.entries ≠ []) (hs : m.entries.Pairwise (fun x y => x.1 ≤ y.1))
    (A : Nat) (hA : (m.entries.getLast h).1 ≤ A) :
    lookup_relative_address ext m A = PanicOr.ok none := by
  have hfind := findEntryAndNext_last m.entries h A hs hA
  cases hname : (m.entries.getLast h).2.name ext (m.entries.getLast h).1 with
  | none => simp [lookup_relative_address, hfind, hname]
  | some nm => simp [lookup_relative_address, hfind, hname]

/-- Witness for C10 on a table whose *last* entry is a named Symbol (the text
section's end address overflows u32 and is dropped): address 100 misses. -/
theorem c10_last_entry_never_returned_witness :
    mapTail.entries = [(16, FullSymbolListEntry.symbol (some [97]))] ∧
    lookup_relative_address extId mapTail 100 = PanicOr.ok none :=
  ⟨by decide,
    c10_last_entry_never_returned extId mapTail (by decide) (by decide) 100 (by decide)⟩

/-! ## uleb128 bit lemmas -/

theorem shiftLeft_lor_distrib (x y s : Nat) :
    (x ||| y) <<< s = (x <<< s) ||| (y <<< s) := by
  apply Nat.eq_of_testBit_eq
  intro i
  rw [Nat.testBit_lor, Nat.testBit_shiftLeft, Nat.testBit_shiftLeft, Nat.testBit_shiftLeft,
    Nat.testBit_lor, Bool.and_or_distrib_left]

theorem mod128_lor_div128 (v : Nat) : (v % 128) ||| ((v / 128) <<< 7) = v := by
  have hdiv : v / 128 = v >>> 7 := by
    rw [Nat.shiftRight_eq_div_pow]
  apply Nat.eq_of_testBit_eq
  intro i
  rw [Nat.testBit_lor, hdiv, Nat.testBit_shiftLeft,
    show (128 : Nat) = 2 ^ 7 from rfl, Nat.testBit_mod_two_pow]
  by_cases h : i < 7
  · have h2 : ¬ (7 ≤ i) := by omega
    simp [h, h2]
  · have h2 : 7 ≤ i := by omega
    rw [Nat.testBit_shiftRight]
    have h3 : 7 + (i - 7) = i := by omega
    rw [h3]
    simp [h, h2]

theorem encode_step_lor (v shift : Nat) :
    ((v % 128) <<< shift) ||| ((v / 128) <<< (shift + 7)) = v <<< shift := by
  rw [show shift + 7 = 7 + shift from by omega, Nat.shiftLeft_add, ← shiftLeft_lor_distrib,
    mod128_lor_div128]

theorem and_127_eq_mod (b : Nat) : b &&& 127 = b % 128 := by
  have h := Nat.and_pow_two_sub_one_eq_mod b 7
  simpa using h

theorem and_128_of_lt (b : Nat) (h : b < 128) : b &&& 128 = 0 := by
  have h1 : b &&& 128 = b &&& 2 ^ 7 := rfl
  rw [h1, Nat.and_two_pow]
  have : b.testBit 7 = false := by
    rw [Nat.testBit_to_div_mod]
    have h0 : b / 2 ^ 7 = 0 := Nat.div_eq_of_lt h
    simp only [decide_eq_false_iff_not]
    omega
  simp [this]

theorem and_128_of_ge (b : Nat) (h1 : 128 ≤ b) (h2 : b < 256) : b &&& 128 = 128 := by
  have he : b &&& 128 = b &&& 2 ^ 7 := rfl
  rw [he, Nat.and_two_pow]
  have : b.testBit 7 = true := by
    rw [Nat.testBit_to_div_mod]
    have hd : b / 2 ^ 7 = 1 := by
      have h128 : (128 : Nat) = 2 ^ 7 := rfl
      omega
    simp only [decide_eq_true_eq]
    omega
  simp [this]

/-- Decoding an encoded value with anything appended consumes exactly the
encoding and ORs the value (shifted) into the accumulated result. -/
theorem read_uleb128_go_encode :
    ∀ (v result shift : Nat) (tail : List Nat),
    shift % 7 = 0 → shift ≤ 63 → v < 2 ^ (64 - shift) →
    read_uleb128_go (uleb128Encode v ++ tail) result shift =
      some (result ||| (v <<< shift), tail) := by
  intro v
  induction v using Nat.strong_induction_on with
  | _ v ih =>
    intro result shift tail h7 h63 hv
    rw [uleb128Encode]
    split
    next hsmall =>
      rw [List.singleton_append, read_uleb128_go]
      have hguard : (shift == 63 && v != 0x00 && v != 0x01) = false := by
        by_cases hs : shift = 63
        · subst hs
          have hv2 : v < 2 := by simpa using hv
          interval_cases v <;> rfl
        · simp [hs]
      rw [hguard]
      simp only [Bool.false_eq_true, if_false]
      rw [and_127_eq_mod, Nat.mod_eq_of_lt hsmall]
      have hterm : (v &&& 128 == 0) = true := by
        rw [and_128_of_lt v hsmall]
        rfl
      rw [hterm]
      simp
    next hbig =>
      rw [List.cons_append, read_uleb128_go]
      have hshift : shift ≤ 56 := by
        rcases Nat.lt_or_ge shift 63 with h | h
        · omega
        · exfalso
          have : shift = 63 := by omega
          subst this
          have hv2 : v < 2 := by simpa using hv
          omega
      have hguard : ((shift == 63 && (v % 128 + 128) != 0x00) && (v % 128 + 128) != 0x01)
          = false := by
        have : (shift == 63) = false := by simp; omega
        simp [this]
      rw [hguard]
      simp only [Bool.false_eq_true, if_false]
      have hb256 : v % 128 + 128 < 256 := by
        have := Nat.mod_lt v (y := 128) (by omega)
        omega
      have hlow : (v % 128 + 128) &&& 127 = v % 128 := by
        rw [and_127_eq_mod]
        omega
      rw [hlow]
      have hcont : ((v % 128 + 128) &&& 128 == 0) = false := by
        rw [and_128_of_ge _ (by omega) hb256]
        rfl
      rw [hcont]
      simp only [Bool.false_eq_true, if_false]
      have hrec := ih (v / 128) (Nat.div_lt_self (by omega) (by omega))
        (result ||| (v % 128) <<< shift) (shift + 7) tail (by omega) (by omega)
        (by
          have hexp : (2 : Nat) ^ (64 - shift) = 2 ^ (64 - (shift + 7)) * 2 ^ 7 := by
            rw [← Nat.pow_add]
            congr 1
            omega
          rw [hexp] at hv
          have : v / 128 < 2 ^ (64 - (shift + 7)) := by
            apply Nat.div_lt_of_lt_mul
            simpa [Nat.mul_comm] using hv
          exact this)
      rw [hrec]
      rw [Nat.lor_assoc, encode_step_lor]

/-- Nine continuation bytes bring the decoder to shift 63; a tenth byte
outside {0x00, 0x01} is rejected. -/
theorem read_uleb128_go_overlong :
    ∀ (pre : List Nat) (shift result b : Nat) (rest : List Nat),
    (∀ x ∈ pre, 128 ≤ x ∧ x < 256) → shift + 7 * pre.length = 63 →
    b ≠ 0x00 → b ≠ 0x01 →
    read_uleb128_go (pre ++ b :: rest) result shift = none := by
  intro pre
  induction pre with
  | nil =>
    intro shift result b rest _ hlen hb0 hb1
    have hs : shift = 63 := by simpa using hlen
    subst hs
    rw [List.nil_append, read_uleb128_go]
    have : ((63 == 63 && b != 0x00) && b != 0x01) = true := by
      simp [hb0, hb1]
    rw [this]
    simp
  | cons x pre' ih =>
    intro shift result b rest hbytes hlen hb0 hb1
    rw [List.cons_append, read_uleb128_go]
    have hx := hbytes x (List.mem_cons_self _ _)
    have hshift : shift ≤ 56 := by
      simp only [List.length_cons] at hlen
      omega
    have hguard : ((shift == 63 && x != 0x00) && x != 0x01) = false := by
      have : (shift == 63) = false := by simp; omega
      simp [this]
    rw [hguard]
    simp only [Bool.false_eq_true, if_false]
    have hcont : (x &&& 128 == 0) = false := by
      rw [and_128_of_ge _ hx.1 hx.2]
      rfl
    rw [hcont]
    simp only [Bool.false_eq_true, if_false]
    apply ih
    · intro y hy
      exact hbytes y (List.mem_cons_of_mem _ hy)
    · simp only [List.length_cons] at hlen
      omega
    · exact hb0
    · exact hb1

/-! ## Claim C7 -/

/-- C7 counterexample: encoding V, appending a zero byte and decoding does
*not* leave an empty tail — the appended zero byte remains.  At V = 0 the
input is `[0x00, 0x00]` and the decoder returns `(0, [0x00])`. -/
theorem c7_counterexample :
    read_uleb128 (uleb128Encode 0 ++ [0]) = some (0, [0]) ∧
    read_uleb128 (uleb128Encode 0 ++ [0]) ≠ some (0, []) := by
  constructor
  · rw [show uleb128Encode 0 = [0] from by rw [uleb128Encode]; rfl]
    decide
  · rw [show uleb128Encode 0 = [0] from by rw [uleb128Encode]; rfl]
    decide

/-- C7 (amended): for every V < 2⁶⁴, uleb128-encoding V, appending a zero
byte and decoding yields `Some (V, [0x00])` — the value round-trips and the
tail is exactly the appended zero byte (not empty); and no overlong sequence
decodes: any input reaching shift 63 (nine continuation bytes) whose tenth
byte is neither 0x00 nor 0x01 makes `read_uleb128` return `None`. -/
theorem c7_uleb128_roundtrip_and_overlong :
    (∀ v : Nat, v < 2 ^ 64 →
      read_uleb128 (uleb128Encode v ++ [0]) = some (v, [0])) ∧
    (∀ (pre : List Nat) (b : Nat) (rest : List Nat),
      pre.length = 9 → (∀ x ∈ pre, 128 ≤ x ∧ x < 256) → b ≠ 0x00 → b ≠ 0x01 →
      read_uleb128 (pre ++ b :: rest) = none) := by
  constructor
  · intro v hv
    rw [read_uleb128, read_uleb128_go_encode v 0 0 [0] (by omega) (by omega) (by simpa using hv)]
    simp
  · intro pre b rest hlen hbytes hb0 hb1
    rw [read_uleb128]
    exact read_uleb128_go_overlong pre 0 0 b rest hbytes (by omega) hb0 hb1

theorem c7_uleb128_roundtrip_and_overlong_witness :
    (300 < 2 ^ 64 ∧ read_uleb128 (uleb128Encode 300 ++ [0]) = some (300, [0])) ∧
    read_uleb128 [0x80, 0x80, 0x80, 0x80, 0x80, 0x80, 0x80, 0x80, 0x80, 0x02] = none :=
  ⟨⟨by decide, c7_uleb128_roundtrip_and_overlong.1 300 (by decide)⟩,
    c7_uleb128_roundtrip_and_overlong.2
      [0x80, 0x80, 0x80, 0x80, 0x80, 0x80, 0x80, 0x80, 0x80] 0x02 []
      (by decide) (by decide) (by decide) (by decide)⟩

/-! ## Claim C8 -/

theorem get_arch_range_go_spec :
    ∀ (arches : List FatArchModel) (debug_id : Nat) (dids : List Nat)
      (errs : List CollectedError),
    (∀ a ∈ arches, a.parseOk) →
    get_arch_range_go debug_id dids errs arches =
      (match arches.find? (fun a => a.debugId == some debug_id) with
      | some a => Except.ok (a.start, a.size)
      | none => Except.error (ArchRangeError.noMatchMultiArch
          (dids ++ arches.filterMap (fun a => a.debugId))
          (errs ++ arches.filterMap (fun a =>
            match a.debugId with
            | none => some (CollectedError.invalidInputError "Missing mach-O UUID")
            | some _ => none)))) := by
  intro arches
  induction arches with
  | nil =>
    intro debug_id dids errs _
    simp [get_arch_range_go]
  | cons a rest ih =>
    intro debug_id dids errs hok
    have hpa : a.parseOk := hok a (List.mem_cons_self _ _)
    have hrest : ∀ x ∈ rest, x.parseOk := fun x hx => hok x (List.mem_cons_of_mem _ hx)
    cases hdi : a.debugId with
    | some di =>
      by_cases heq : di = debug_id
      · subst heq
        rw [List.find?_cons_of_pos _ (by simp [hdi])]
        simp only [get_arch_range_go, hpa, hdi, if_true]
      · rw [List.find?_cons_of_neg _ (by simp [hdi, heq])]
        simp only [get_arch_range_go, hpa, hdi, if_true]
        rw [if_neg heq, ih debug_id (dids ++ [di]) errs hrest]
        cases rest.find? (fun a => a.debugId == some debug_id) with
        | some b => rfl
        | none => simp [List.filterMap_cons, hdi]
    | none =>
      rw [List.find?_cons_of_neg _ (by simp [hdi])]
      simp only [get_arch_range_go, hpa, hdi, if_true]
      rw [ih debug_id dids
        (errs ++ [CollectedError.invalidInputError "Missing mach-O UUID"]) hrest]
      cases rest.find? (fun a => a.debugId == some debug_id) with
      | some b => rfl
      | none => simp [List.filterMap_cons, hdi]

/-- C8: when every slice parses as Mach-O, `get_arch_range` returns the file
range of the first slice whose DebugId equals the requested one, and when no
slice matches it returns `NoMatchMultiArch` carrying the DebugIds of the
slices (in order) and one missing-UUID error per slice without a UUID — the
spec-side selection function `specArchSelect`. -/
theorem c8_fat_binary_selection (arches : List FatArchModel) (debug_id : Nat)
    (hok : ∀ a ∈ arches, a.parseOk) :
    get_arch_range arches debug_id = specArchSelect arches debug_id := by
  rw [get_arch_range, get_arch_range_go_spec arches debug_id [] [] hok, specArchSelect]
  cases arches.find? (fun a => a.debugId == some debug_id) with
  | some a => rfl
  | none => simp

/-- Witness for C8: two slices with DebugIds A = 1 and B = 2; requesting the
absent id C = 3 yields `NoMatchMultiArch([A, B], [])`, and requesting B
yields slice B's range. -/
theorem c8_fat_binary_selection_witness :
    (∀ a ∈ archesTwo, a.parseOk) ∧
    get_arch_range archesTwo 3 =
      Except.error (ArchRangeError.noMatchMultiArch [1, 2] []) ∧
    get_arch_range archesTwo 2 = Except.ok (100, 50) := by
  refine ⟨by decide, ?_, ?_⟩
  · rw [c8_fat_binary_selection archesTwo 3 (by decide)]
    decide
  · rw [c8_fat_binary_selection archesTwo 2 (by decide)]
    decide

/-! ## Claim C4 -/

/-- C4 counterexample: on non-x86 architectures `kernel_min` is
`0xF000_0000_0000_0000`, not 2⁶⁰: the address 2⁶⁰ is classified `User`,
though the claim's `kernel_min = 2⁶⁰` would make every address ≥ 2⁶⁰
`Kernel`. -/
theorem c4_counterexample :
    kernelMinForArch "arm64" ≠ 2 ^ 60 ∧
    2 ^ 60 ≥ 2 ^ 60 ∧
    (AddressClassifier.mk (kernelMinForArch "arm64")).get_stack_mode (2 ^ 60) =
      StackMode.user := by
  refine ⟨by decide, by decide, by decide⟩

/-- C4 (amended): the classifier partitions every raw address by comparing
against `kernel_min` (`address ≥ kernel_min` is Kernel, otherwise User),
where `kernel_min` is 2³¹ when the architecture is x86 and
`0xF000_0000_0000_0000` (the top four address bits set) otherwise. -/
theorem c4_address_classifier (arch : String) (address : Nat) :
    ((AddressClassifier.mk (kernelMinForArch "x86")).get_stack_mode address =
        StackMode.kernel ↔ 2 ^ 31 ≤ address) ∧
    (arch ≠ "x86" →
      ((AddressClassifier.mk (kernelMinForArch arch)).get_stack_mode address =
        StackMode.kernel ↔ 0xF000000000000000 ≤ address)) ∧
    ((AddressClassifier.mk (kernelMinForArch arch)).get_stack_mode address =
        StackMode.kernel ∨
      (AddressClassifier.mk (kernelMinForArch arch)).get_stack_mode address =
        StackMode.user) := by
  refine ⟨?_, ?_, ?_⟩
  · have hk : (AddressClassifier.mk (kernelMinForArch "x86")).kernel_min = 2 ^ 31 := by
      norm_num [kernelMinForArch]
    rw [AddressClassifier.get_stack_mode, hk]
    constructor
    · intro h
      by_contra hc
      rw [if_neg hc] at h
      cases h
    · intro h
      rw [if_pos h]
  · intro harch
    have hk : (AddressClassifier.mk (kernelMinForArch arch)).kernel_min =
        0xF000000000000000 := by
      show kernelMinForArch arch = _
      rw [kernelMinForArch, if_neg harch]
    rw [AddressClassifier.get_stack_mode, hk]
    constructor
    · intro h
      by_contra hc
      rw [if_neg hc] at h
      cases h
    · intro h
      rw [if_pos h]
  · rw [AddressClassifier.get_stack_mode]
    split
    · exact Or.inl rfl
    · exact Or.inr rfl

theorem c4_address_classifier_witness :
    ("arm64" : String) ≠ "x86" ∧
    ((AddressClassifier.mk (kernelMinForArch "arm64")).get_stack_mode 7 =
      StackMode.kernel ↔ 0xF000000000000000 ≤ 7) :=
  ⟨by decide, (c4_address_classifier "arm64" 7).2.1 (by decide)⟩

/-! ## Claim C6 -/

/-- C6: with process recycling enabled, ending a process named N and then
starting a new PID with the same name N reuses the same process handle,
main-thread handle and main-thread label frame; with recycling disabled the
new process gets a distinct, freshly added handle. -/
theorem c6_process_recycling (fn : String → String → String) (file cmd : String)
    (pid1 pid2 pp t1 t2 t3 : Nat)
    (h1 : pid1 ≠ 0) (h2 : pid2 ≠ 0) (h12 : pid2 ≠ pid1) :
    (∃ p1 p2 : ProcessStateM,
      alookup (handle_process_start (initialContext true fn) t1 pid1 pp file cmd).processes
        pid1 = some p1 ∧
      alookup (handle_process_start (handle_process_end
          (handle_process_start (initialContext true fn) t1 pid1 pp file cmd) t2 pid1)
          t3 pid2 pp file cmd).processes pid2 = some p2 ∧
      p2.handle = p1.handle ∧ p2.main_thread_handle = p1.main_thread_handle ∧
      p2.main_thread_label_frame = p1.main_thread_label_frame) ∧
    (∃ q1 q2 : ProcessStateM,
      alookup (handle_process_start (initialContext false fn) t1 pid1 pp file cmd).processes
        pid1 = some q1 ∧
      alookup (handle_process_start (handle_process_end
          (handle_process_start (initialContext false fn) t1 pid1 pp file cmd) t2 pid1)
          t3 pid2 pp file cmd).processes pid2 = some q2 ∧
      q2.handle ≠ q1.handle) := by
  have hb1 : (pid1 == 0) = false := by simpa using h1
  have hb2 : (pid2 == 0) = false := by simpa using h2
  have hb12 : (pid1 == pid2) = false := by simp; omega
  constructor
  · simp only [initialContext, handle_process_start, handle_process_end, addFreshProcess,
      is_interesting_process, alookup, ainsert, aremove, recycleFromPool, take_recycling_data,
      ProfileM.add_process, ProfileM.add_thread, ProfileM.set_process_end_time,
      ProfileM.intern_string, make_thread_label_frame, TimestampConverter.convert_time,
      hb1, hb2, hb12, List.find?, List.filter, beq_self_eq_true, Option.isSome,
      Bool.false_eq_true, if_false, if_true, ite_self, not_true, not_false_iff]
    simp [recycleFromPool]
  · simp only [initialContext, handle_process_start, handle_process_end, addFreshProcess,
      is_interesting_process, alookup, ainsert, aremove, recycleFromPool, take_recycling_data,
      ProfileM.add_process, ProfileM.add_thread, ProfileM.set_process_end_time,
      ProfileM.intern_string, make_thread_label_frame, TimestampConverter.convert_time,
      hb1, hb2, hb12, List.find?, List.filter, beq_self_eq_true, Option.isSome,
      Bool.false_eq_true, if_false, if_true, ite_self, not_true, not_false_iff]
    simp

theorem c6_process_recycling_witness :
    (10 : Nat) ≠ 0 ∧ (20 : Nat) ≠ 0 ∧ (20 : Nat) ≠ 10 ∧
    (∃ p1 p2 : ProcessStateM,
      alookup (handle_process_start (initialContext true (fun a _ => a)) 1 10 4
        "app.exe" "").processes 10 = some p1 ∧
      alookup (handle_process_start (handle_process_end
          (handle_process_start (initialContext true (fun a _ => a)) 1 10 4 "app.exe" "") 2 10)
          3 20 4 "app.exe" "").processes 20 = some p2 ∧
      p2.handle = p1.handle ∧ p2.main_thread_handle = p1.main_thread_handle ∧
      p2.main_thread_label_frame = p1.main_thread_label_frame) ∧
    (∃ q1 q2 : ProcessStateM,
      alookup (handle_process_start (initialContext false (fun a _ => a)) 1 10 4
        "app.exe" "").processes 10 = some q1 ∧
      alookup (handle_process_start (handle_process_end
          (handle_process_start (initialContext false (fun a _ => a)) 1 10 4 "app.exe" "") 2 10)
          3 20 4 "app.exe" "").processes 20 = some q2 ∧
      q2.handle ≠ q1.handle) :=
  ⟨by decide, by decide, by decide,
    (c6_process_recycling (fun a _ => a) "app.exe" "" 10 20 4 1 2 3
      (by decide) (by decide) (by decide)).1,
    (c6_process_recycling (fun a _ => a) "app.exe" "" 10 20 4 1 2 3
      (by decide) (by decide) (by decide)).2⟩

/-! ## Drain-loop lemmas for `handle_user_stack` -/

theorem alookup_ainsert_self {α : Type} (m : List (Nat × α)) (k : Nat) (v : α) :
    alookup (ainsert m k v) k = some v := by
  simp [alookup, ainsert, List.find?_cons_of_pos]

theorem take_takeWhile_length {α : Type} (p : α → Bool) : ∀ (l : List α),
    l.take (l.takeWhile p).length = l.takeWhile p := by
  intro l
  induction l with
  | nil => rfl
  | cons x rest ih =>
    by_cases hx : p x
    · rw [List.takeWhile_cons_of_pos hx, List.length_cons, List.take_succ_cons, ih]
    · rw [List.takeWhile_cons_of_neg hx]
      rfl

theorem drop_takeWhile_length {α : Type} (p : α → Bool) : ∀ (l : List α),
    l.drop (l.takeWhile p).length = l.dropWhile p := by
  intro l
  induction l with
  | nil => rfl
  | cons x rest ih =>
    by_cases hx : p x
    · rw [List.takeWhile_cons_of_pos hx, List.dropWhile_cons_of_pos hx, List.length_cons,
        List.drop_succ_cons, ih]
    · rw [List.takeWhile_cons_of_neg hx, List.dropWhile_cons_of_neg hx]
      rfl

theorem takeWhile_eq_filter_of_sorted : ∀ (l : List PendingStack) (T : Nat),
    l.Pairwise (fun a b => a.timestamp ≤ b.timestamp) →
    l.takeWhile (fun p => decide (p.timestamp ≤ T)) =
      l.filter (fun p => decide (p.timestamp ≤ T)) := by
  intro l
  induction l with
  | nil => intro T _; rfl
  | cons x rest ih =>
    intro T hs
    rw [List.pairwise_cons] at hs
    by_cases hx : x.timestamp ≤ T
    · rw [List.takeWhile_cons_of_pos (by simpa using hx),
        List.filter_cons_of_pos (by simpa using hx), ih T hs.2]
    · rw [List.takeWhile_cons_of_neg (by simpa using hx),
        List.filter_cons_of_neg (by simpa using hx)]
      symm
      apply List.filter_eq_nil_iff.mpr
      intro y hy
      have := hs.1 y hy
      simp only [decide_eq_true_eq]
      omega

theorem dropWhile_eq_filter_not_of_sorted : ∀ (l : List PendingStack) (T : Nat),
    l.Pairwise (fun a b => a.timestamp ≤ b.timestamp) →
    l.dropWhile (fun p => decide (p.timestamp ≤ T)) =
      l.filter (fun p => !(decide (p.timestamp ≤ T))) := by
  intro l
  induction l with
  | nil => intro T _; rfl
  | cons x rest ih =>
    intro T hs
    rw [List.pairwise_cons] at hs
    by_cases hx : x.timestamp ≤ T
    · rw [List.dropWhile_cons_of_pos (by simpa using hx),
        List.filter_cons_of_neg (by simpa using hx), ih T hs.2]
    · rw [List.dropWhile_cons_of_neg (by simpa using hx),
        List.filter_cons_of_pos (by simpa using hx)]
      congr 1
      symm
      apply List.filter_eq_self.mpr
      intro y hy
      have := hs.1 y hy
      simp only [Bool.not_eq_true', decide_eq_false_iff_not]
      omega

theorem tableExtends_refl (t : List (List StackFrame)) : tableExtends t t :=
  fun _ _ h => h

theorem tableExtends_trans {t1 t2 t3 : List (List StackFrame)}
    (h12 : tableExtends t1 t2) (h23 : tableExtends t2 t3) : tableExtends t1 t3 :=
  fun i x h => h23 i x (h12 i x h)

theorem convertStack_get (t : List (List StackFrame)) (fs : List StackFrame) :
    (convertStack t fs).2[(convertStack t fs).1]? = some fs := by
  unfold convertStack
  cases h : t.findIdx? (fun x => x == fs) with
  | none => simp
  | some i =>
    obtain ⟨hlen, hp, _⟩ := List.findIdx?_eq_some_iff_getElem.mp h
    have hi : t[i] = fs := by simpa using hp
    simp only
    rw [List.getElem?_eq_getElem hlen, hi]

theorem convertStack_extends (t : List (List StackFrame)) (fs : List StackFrame) :
    tableExtends t (convertStack t fs).2 := by
  unfold convertStack
  cases h : t.findIdx? (fun x => x == fs) with
  | none =>
    intro i x hix
    have hlt : i < t.length := by
      by_contra hc
      rw [List.getElem?_eq_none (by omega)] at hix
      cases hix
    simp only
    rw [List.getElem?_append_left hlt]
    exact hix
  | some j => intro i x hix; exact hix

theorem viewSample_extends {t t' : List (List StackFrame)} (h : tableExtends t t')
    {r : SampleRec} {x : List StackFrame} (hr : t[r.stack_index]? = some x) :
    viewSample t' r = viewSample t r := by
  unfold viewSample
  rw [h _ _ hr, hr]

theorem stepPendingOff_spec (conv : TimestampConverter) (pid th uidx : Nat)
    (ds : DrainState) (proc : ProcessStateM) (grp : Option OffCpuSampleGroup)
    (hproc : alookup ds.processes pid = some proc) :
    ∃ (ds1 : DrainState) (stepApp : List SampleRec) (proc1 : ProcessStateM),
      stepPendingOff conv pid th uidx ds grp = Except.ok ds1 ∧
      alookup ds1.processes pid = some proc1 ∧
      proc1.unresolved_samples = proc.unresolved_samples ++ stepApp ∧
      ds1.unresolved_stacks = ds.unresolved_stacks ∧
      ds1.context_switch_data.accumulated_delta =
        (match grp with
         | some _ => 0
         | none => ds.context_switch_data.accumulated_delta) ∧
      stepApp =
        (match grp with
         | none => []
         | some g =>
           ⟨th, conv.convert_time g.begin_timestamp, g.begin_timestamp, uidx,
             ds.context_switch_data.accumulated_delta * conv.raw_to_ns_factor, 1⟩ ::
           (if 1 < g.sample_count then
             [⟨th, conv.convert_time g.end_timestamp, g.end_timestamp, uidx, 0,
               if g.sample_count - 1 ≤ 2147483647 then ((g.sample_count - 1 : Nat) : Int)
               else 0⟩]
           else [])) := by
  cases grp with
  | none =>
    exact ⟨ds, [], proc, rfl, hproc, by simp, rfl, rfl, rfl⟩
  | some g =>
    rw [stepPendingOff]
    simp only [consume_cpu_delta]
    rw [show alookup
        ({ ds with context_switch_data := (⟨0⟩ : ThreadContextSwitchData) } :
          DrainState).processes pid = some proc from hproc]
    exact ⟨_,
      [⟨th, conv.convert_time g.begin_timestamp, g.begin_timestamp, uidx,
        ds.context_switch_data.accumulated_delta * conv.raw_to_ns_factor, 1⟩] ++
        (if 1 < g.sample_count then
          [⟨th, conv.convert_time g.end_timestamp, g.end_timestamp, uidx, 0,
            if g.sample_count - 1 ≤ 2147483647 then ((g.sample_count - 1 : Nat) : Int)
            else 0⟩]
        else []),
      _, rfl, alookup_ainsert_self _ _ _, by simp, rfl, rfl, by simp⟩

theorem stepPendingOn_spec (conv : TimestampConverter) (pid th : Nat)
    (user_stack : List StackFrame) (uidx tsr : Nat)
    (kstack : Option (List StackFrame)) (delta : Option Nat)
    (ds : DrainState) (proc : ProcessStateM)
    (hproc : alookup ds.processes pid = some proc)
    (htab : ds.unresolved_stacks[uidx]? = some user_stack.reverse) :
    ∃ (ds1 : DrainState) (stepApp : List SampleRec) (proc1 : ProcessStateM),
      stepPendingOn conv pid th user_stack uidx tsr kstack delta ds = Except.ok ds1 ∧
      alookup ds1.processes pid = some proc1 ∧
      proc1.unresolved_samples = proc.unresolved_samples ++ stepApp ∧
      tableExtends ds.unresolved_stacks ds1.unresolved_stacks ∧
      ds1.context_switch_data = ds.context_switch_data ∧
      stepApp.map (viewSample ds1.unresolved_stacks) =
        (match delta with
         | none => []
         | some d =>
           match kstack with
           | some ks =>
             [⟨th, conv.convert_time tsr, tsr, (ks ++ user_stack).reverse, d, 1⟩]
           | none => [⟨th, conv.convert_time tsr, tsr, user_stack.reverse, d, 1⟩]) ∧
      (∀ r ∈ stepApp, ∃ x, ds1.unresolved_stacks[r.stack_index]? = some x) := by
  cases delta with
  | none =>
    exact ⟨ds, [], proc, rfl, hproc, by simp, tableExtends_refl _, rfl, rfl, by simp⟩
  | some d =>
    cases kstack with
    | none =>
      rw [stepPendingOn]
      simp only [hproc]
      refine ⟨_, [⟨th, conv.convert_time tsr, tsr, uidx, d, 1⟩], _,
        rfl, alookup_ainsert_self _ _ _, by simp, tableExtends_refl _, rfl, ?_, ?_⟩
      · simp [viewSample, htab]
      · intro r hr
        rcases List.mem_singleton.mp hr with rfl
        exact ⟨user_stack.reverse, htab⟩
    | some ks =>
      rw [stepPendingOn]
      simp only []
      rw [show alookup
          ({ ds with unresolved_stacks :=
            (convertStack ds.unresolved_stacks (ks ++ user_stack).reverse).2 } :
            DrainState).processes pid = some proc from hproc]
      refine ⟨_,
        [⟨th, conv.convert_time tsr, tsr,
          (convertStack ds.unresolved_stacks (ks ++ user_stack).reverse).1, d, 1⟩], _,
        rfl, alookup_ainsert_self _ _ _, by simp, ?_, rfl, ?_, ?_⟩
      · exact convertStack_extends _ _
      · simp [viewSample, convertStack_get]
      · intro r hr
        rcases List.mem_singleton.mp hr with rfl
        exact ⟨(ks ++ user_stack).reverse, convertStack_get _ _⟩

theorem map_view_congr {t t' : List (List StackFrame)} (h : tableExtends t t')
    (l : List SampleRec) (hidx : ∀ r ∈ l, ∃ x, t[r.stack_index]? = some x) :
    l.map (viewSample t') = l.map (viewSample t) := by
  induction l with
  | nil => rfl
  | cons r rest ih =>
    obtain ⟨x, hx⟩ := hidx r (List.mem_cons_self _ _)
    rw [List.map_cons, List.map_cons, viewSample_extends h hx,
      ih (fun s hs => hidx s (List.mem_cons_of_mem _ hs))]

theorem processPending_spec (conv : TimestampConverter) (pid th : Nat)
    (user_stack : List StackFrame) (uidx : Nat) :
    ∀ (pending : List PendingStack) (ds : DrainState) (proc : ProcessStateM),
    alookup ds.processes pid = some proc →
    ds.unresolved_stacks[uidx]? = some user_stack.reverse →
    ∃ (proc' : ProcessStateM) (appended : List SampleRec),
      alookup (processPending conv pid th user_stack uidx ds pending).processes pid
        = some proc' ∧
      proc'.unresolved_samples = proc.unresolved_samples ++ appended ∧
      tableExtends ds.unresolved_stacks
        (processPending conv pid th user_stack uidx ds pending).unresolved_stacks ∧
      appended.map (viewSample
          (processPending conv pid th user_stack uidx ds pending).unresolved_stacks)
        = specDrainSamples conv th user_stack
            ds.context_switch_data.accumulated_delta pending := by
  intro pending
  induction pending with
  | nil =>
    intro ds proc hproc htab
    exact ⟨proc, [], hproc, by simp, tableExtends_refl _, by simp [specDrainSamples]⟩
  | cons p rest ih =>
    intro ds proc hproc htab
    obtain ⟨pts, pks, pgrp, pdelta⟩ := p
    obtain ⟨dsA, appA, procA, heqA, hlookA, hsampA, htabAeq, hcsdA, happA⟩ :=
      stepPendingOff_spec conv pid th uidx ds proc pgrp hproc
    have htabA : dsA.unresolved_stacks[uidx]? = some user_stack.reverse := by
      rw [htabAeq]
      exact htab
    obtain ⟨dsB, appB, procB, heqB, hlookB, hsampB, hextB, hcsdB, hmapB, hidxB⟩ :=
      stepPendingOn_spec conv pid th user_stack uidx pts pks pdelta dsA procA hlookA htabA
    have hstep : stepPending conv pid th user_stack uidx ds ⟨pts, pks, pgrp, pdelta⟩ =
        Except.ok dsB := by
      rw [stepPending]
      simp only [heqA]
      exact heqB
    have hres : processPending conv pid th user_stack uidx ds (⟨pts, pks, pgrp, pdelta⟩ :: rest) =
        processPending conv pid th user_stack uidx dsB rest := by
      rw [processPending, hstep]
    have htabB : dsB.unresolved_stacks[uidx]? = some user_stack.reverse :=
      hextB uidx _ htabA
    obtain ⟨proc', appended', hlook', hsamp', hext', hmap'⟩ :=
      ih dsB procB hlookB htabB
    have hextDSB : tableExtends ds.unresolved_stacks dsB.unresolved_stacks := by
      intro i x hx
      apply hextB i x
      rw [htabAeq]
      exact hx
    have hfinal_uidx : (processPending conv pid th user_stack uidx dsB
        rest).unresolved_stacks[uidx]? = some user_stack.reverse :=
      hext' uidx _ htabB
    have hmapB' : appB.map (viewSample (processPending conv pid th user_stack uidx dsB
        rest).unresolved_stacks) = appB.map (viewSample dsB.unresolved_stacks) :=
      map_view_congr hext' appB hidxB
    refine ⟨proc', appA ++ (appB ++ appended'), ?_, ?_, ?_, ?_⟩
    · rw [hres]
      exact hlook'
    · rw [hsamp', hsampB, hsampA]
      simp [List.append_assoc]
    · rw [hres]
      exact tableExtends_trans hextDSB hext'
    · rw [hres, List.map_append, List.map_append, hmapB', hmapB]
      cases pgrp with
      | none =>
        have hacc : dsB.context_switch_data.accumulated_delta =
            ds.context_switch_data.accumulated_delta := by
          rw [hcsdB]
          exact hcsdA
        rw [hacc] at hmap'
        rw [happA]
        simp only [specDrainSamples, List.map_nil, List.nil_append]
        rw [hmap']
      | some g =>
        have hacc : dsB.context_switch_data.accumulated_delta = 0 := by
          rw [hcsdB]
          exact hcsdA
        rw [hacc] at hmap'
        rw [happA]
        simp only [specDrainSamples]
        rw [hmap']
        by_cases hc : 1 < g.sample_count
        · simp only [hc, if_true, List.map_append, List.map_cons, List.map_nil]
          rw [show viewSample (processPending conv pid th user_stack uidx dsB
                rest).unresolved_stacks
              ⟨th, conv.convert_time g.begin_timestamp, g.begin_timestamp, uidx,
                ds.context_switch_data.accumulated_delta * conv.raw_to_ns_factor, 1⟩ =
              ⟨th, conv.convert_time g.begin_timestamp, g.begin_timestamp,
                user_stack.reverse,
                ds.context_switch_data.accumulated_delta * conv.raw_to_ns_factor, 1⟩ from by
            simp [viewSample, hfinal_uidx]]
          rw [show viewSample (processPending conv pid th user_stack uidx dsB
                rest).unresolved_stacks
              ⟨th, conv.convert_time g.end_timestamp, g.end_timestamp, uidx, 0,
                if g.sample_count - 1 ≤ 2147483647 then ((g.sample_count - 1 : Nat) : Int)
                else 0⟩ =
              ⟨th, conv.convert_time g.end_timestamp, g.end_timestamp,
                user_stack.reverse, 0,
                if g.sample_count - 1 ≤ 2147483647 then ((g.sample_count - 1 : Nat) : Int)
                else 0⟩ from by
            simp [viewSample, hfinal_uidx]]
          simp
        · simp only [hc, if_false, List.map_append, List.map_cons, List.map_nil]
          rw [show viewSample (processPending conv pid th user_stack uidx dsB
                rest).unresolved_stacks
              ⟨th, conv.convert_time g.begin_timestamp, g.begin_timestamp, uidx,
                ds.context_switch_data.accumulated_delta * conv.raw_to_ns_factor, 1⟩ =
              ⟨th, conv.convert_time g.begin_timestamp, g.begin_timestamp,
                user_stack.reverse,
                ds.context_switch_data.accumulated_delta * conv.raw_to_ns_factor, 1⟩ from by
            simp [viewSample, hfinal_uidx]]
          simp

/-- C5 (amended): when a user-stack event arrives for a known thread whose
pending queue is sorted by timestamp and whose process is known, exactly the
pending stacks with timestamp ≤ the event timestamp are drained in queue
order (the rest stay queued); for each drained pending stack with an off-cpu
sample group one sample is emitted at the group's begin timestamp carrying
the leftover accumulated CPU delta and, when the group's sample count
exceeds one, a second sample at its end timestamp with zero CPU delta and
weight `count - 1` if that fits an `i32` and 0 otherwise (the amendment:
`i32::try_from(sample_count - 1).unwrap_or(0)`); for each drained pending
stack with an on-cpu CPU delta one sample is emitted at the pending stack's
timestamp whose stack is `kernel ++ user` when a kernel stack was attached
and just `user` otherwise. -/
theorem c5_user_stack_drain (s : ProfileContextM) (timestamp_raw pid tid : Nat)
    (stack : List StackFrame) (thread : ThreadStateM) (proc : ProcessStateM)
    (hth : alookup s.threads tid = some thread)
    (hproc : alookup s.processes pid = some proc)
    (hsorted : thread.pending_stacks.Pairwise (fun a b => a.timestamp ≤ b.timestamp)) :
    ∃ (thread' : ThreadStateM) (proc' : ProcessStateM) (appended : List SampleRec),
      alookup (handle_user_stack s timestamp_raw pid tid stack).threads tid
        = some thread' ∧
      thread'.pending_stacks = thread.pending_stacks.filter
        (fun p => !(decide (p.timestamp ≤ timestamp_raw))) ∧
      alookup (handle_user_stack s timestamp_raw pid tid stack).processes pid
        = some proc' ∧
      proc'.unresolved_samples = proc.unresolved_samples ++ appended ∧
      appended.map (viewSample
          (handle_user_stack s timestamp_raw pid tid stack).unresolved_stacks)
        = specDrainSamples s.timestamp_converter thread.handle stack
            thread.context_switch_data.accumulated_delta
            (thread.pending_stacks.filter
              (fun p => decide (p.timestamp ≤ timestamp_raw))) := by
  obtain ⟨proc', appended, hlook', hsamp', hext', hmap'⟩ :=
    processPending_spec s.timestamp_converter pid thread.handle stack
      (convertStack s.unresolved_stacks stack.reverse).1
      (thread.pending_stacks.takeWhile (fun p => decide (p.timestamp ≤ timestamp_raw)))
      ⟨thread.context_switch_data, s.processes,
        (convertStack s.unresolved_stacks stack.reverse).2, s.stack_sample_count⟩
      proc hproc (convertStack_get _ _)
  have hmain : handle_user_stack s timestamp_raw pid tid stack =
      { s with
        unresolved_stacks := (processPending s.timestamp_converter pid thread.handle stack
            (convertStack s.unresolved_stacks stack.reverse).1
            ⟨thread.context_switch_data, s.processes,
              (convertStack s.unresolved_stacks stack.reverse).2, s.stack_sample_count⟩
            (thread.pending_stacks.takeWhile
              (fun p => decide (p.timestamp ≤ timestamp_raw)))).unresolved_stacks
        processes := (processPending s.timestamp_converter pid thread.handle stack
            (convertStack s.unresolved_stacks stack.reverse).1
            ⟨thread.context_switch_data, s.processes,
              (convertStack s.unresolved_stacks stack.reverse).2, s.stack_sample_count⟩
            (thread.pending_stacks.takeWhile
              (fun p => decide (p.timestamp ≤ timestamp_raw)))).processes
        stack_sample_count := (processPending s.timestamp_converter pid thread.handle stack
            (convertStack s.unresolved_stacks stack.reverse).1
            ⟨thread.context_switch_data, s.processes,
              (convertStack s.unresolved_stacks stack.reverse).2, s.stack_sample_count⟩
            (thread.pending_stacks.takeWhile
              (fun p => decide (p.timestamp ≤ timestamp_raw)))).stack_sample_count
        threads := ainsert s.threads tid
          { thread with
            pending_stacks := thread.pending_stacks.dropWhile
              (fun p => decide (p.timestamp ≤ timestamp_raw))
            context_switch_data := (processPending s.timestamp_converter pid thread.handle
                stack (convertStack s.unresolved_stacks stack.reverse).1
                ⟨thread.context_switch_data, s.processes,
                  (convertStack s.unresolved_stacks stack.reverse).2, s.stack_sample_count⟩
                (thread.pending_stacks.takeWhile
                  (fun p => decide (p.timestamp ≤ timestamp_raw)))).context_switch_data } } := by
    simp only [handle_user_stack, hth, take_takeWhile_length, drop_takeWhile_length]
  refine ⟨{ thread with
      pending_stacks := thread.pending_stacks.dropWhile
        (fun p => decide (p.timestamp ≤ timestamp_raw))
      context_switch_data := (processPending s.timestamp_converter pid thread.handle
          stack (convertStack s.unresolved_stacks stack.reverse).1
          ⟨thread.context_switch_data, s.processes,
            (convertStack s.unresolved_stacks stack.reverse).2, s.stack_sample_count⟩
          (thread.pending_stacks.takeWhile
            (fun p => decide (p.timestamp ≤ timestamp_raw)))).context_switch_data },
    proc', appended, ?_, ?_, ?_, hsamp', ?_⟩
  · rw [hmain]
    exact alookup_ainsert_self _ _ _
  · exact dropWhile_eq_filter_not_of_sorted _ _ hsorted
  · rw [hmain]
    exact hlook'
  · rw [hmain, ← takeWhile_eq_filter_of_sorted _ _ hsorted]
    exact hmap'

/-- C5 counterexample to the claim's unconditional weight `count - 1`: for an
off-cpu group with `sample_count = 2^31 + 1`, the second emitted sample has
weight 0 (from `i32::try_from(sample_count - 1).unwrap_or(0)`), although
`count - 1 = 2^31 ≠ 0`. -/
theorem c5_counterexample :
    ((alookup (handle_user_stack ctxBigCount 10 1 2 []).processes 1).map
      (fun p => p.unresolved_samples.map (fun r => r.weight))) = some [1, 0] ∧
    ((2147483649 : Nat) - 1 : Int) ≠ 0 := by
  constructor
  · decide
  · decide

/-- C5 witness: the drain theorem applied to a concrete context whose queue
holds an off-cpu group, an on-cpu sample with a kernel stack, and one pending
stack past the event timestamp. -/
theorem c5_user_stack_drain_witness :
    alookup ctxDrainW.threads 2 = some (threadWithPending pendingW 42) ∧
    alookup ctxDrainW.processes 1 = some procEmpty ∧
    (threadWithPending pendingW 42).pending_stacks.Pairwise
      (fun a b => a.timestamp ≤ b.timestamp) ∧
    (∃ (thread' : ThreadStateM) (proc' : ProcessStateM) (appended : List SampleRec),
      alookup (handle_user_stack ctxDrainW 10 1 2 [userFrame 1, userFrame 2]).threads 2
        = some thread' ∧
      thread'.pending_stacks = (threadWithPending pendingW 42).pending_stacks.filter
        (fun p => !(decide (p.timestamp ≤ 10))) ∧
      alookup (handle_user_stack ctxDrainW 10 1 2 [userFrame 1, userFrame 2]).processes 1
        = some proc' ∧
      proc'.unresolved_samples = procEmpty.unresolved_samples ++ appended ∧
      appended.map (viewSample
          (handle_user_stack ctxDrainW 10 1 2 [userFrame 1, userFrame 2]).unresolved_stacks)
        = specDrainSamples ctxDrainW.timestamp_converter
            (threadWithPending pendingW 42).handle [userFrame 1, userFrame 2]
            (threadWithPending pendingW 42).context_switch_data.accumulated_delta
            ((threadWithPending pendingW 42).pending_stacks.filter
              (fun p => decide (p.timestamp ≤ 10)))) :=
  ⟨by decide, by decide, by decide,
   c5_user_stack_drain ctxDrainW 10 1 2 [userFrame 1, userFrame 2]
     (threadWithPending pendingW 42) procEmpty (by decide) (by decide) (by decide)⟩

end Samply
